import Mathlib

set_option maxHeartbeats 1600000
set_option maxRecDepth 200000

/-
Verification development for the RoughAnimator auto-publish pipeline
(src/bin/roughanimator_auto_publish.py).

Shallow embedding conventions:
- The filesystem view that `publish_animation` reads is captured in
  `PublishInput`: each layer carries its parsed schedule entries and the
  list of cel files that exist on disk (with their content signatures),
  mirroring `discover_layers` / `candidate.exists()` / `file_signature`.
- The external raster engine (ffmpeg/ffprobe) is abstracted: per-cel
  alpha-bbox results (`Cel.bbox`, what `detect_alpha_bbox` would return)
  and composited frame bytes (`PublishInput.compositeBytes`) are oracles,
  fixed inputs of a run. The pure pixel scan inside `detect_alpha_bbox`
  is embedded directly (`detect_alpha_bbox` below).
- Python floats are modelled as exact rationals (ℚ); `int(x)` is
  truncation toward zero (`pyInt`); Python float formatting
  (f"{x:.6f}" / f"{x:.8f}" / str(float)) is modelled by deterministic
  rational formatting (`fmtFixed`, `toString`), which preserves the
  equality behaviour the claims depend on.
- The published output directory is an association list of
  file name -> byte content (`OutDir.files`) plus the JSON state file
  as a typed slot (`OutDir.state`, `none` modelling an absent, unreadable
  or structurally corrupt file). Dict fields of the state that the code
  guards with `isinstance(..., dict)` are `Option` association lists,
  `none` modelling a version-1 state file whose field is non-dict JSON.
- Python dicts are modelled as association lists with insert-or-replace
  (`dictInsert`) and first-match lookup (`dictGet`).
-/

namespace RoughAnimator

/-- Schedule entry parsed from one `start:duration` line of layerData.txt. -/
structure LayerEntry where
  start : Nat
  duration : Nat
deriving DecidableEq, Repr

/-- One cel image file that exists in a layer directory: its 4-digit start
index, its `file_signature` string (path:size:mtime), the `size:mtime`
signature used by `track_input`, and the bbox the alpha detector would
return for it (the detector itself is an external-subprocess computation;
its pure pixel scan is embedded separately below). -/
structure Cel where
  start : Nat
  sig : String
  isig : String
  bbox : Option (Nat × Nat × Nat × Nat)
deriving DecidableEq, Repr

/-- A discovered layer: its directory name (relative to the project dir),
the signature of its layerData.txt if that file exists, its parsed
schedule entries, and the cel files present on disk. -/
structure Layer where
  directory : String
  layerDataSig : Option String
  entries : List LayerEntry
  cels : List Cel
deriving DecidableEq, Repr

/-- The persisted publish state (.publish_state.json). Fields that the
code reads back through `isinstance(..., dict)` guards are `Option`
association lists; `none` models a non-dict JSON value in that field. -/
structure PublishState where
  version : Nat
  global_sig : String
  crop : List Int
  frames : Option (List (String × String))
  input_files : Option (List (String × String))
  cel_bbox_cache : Option (List (String × Option (List Int)))
deriving DecidableEq, Repr

/-- The published output directory: files (name -> bytes) and the state
file slot (`none` = absent/unreadable/corrupt). -/
structure OutDir where
  files : List (String × String)
  state : Option PublishState
deriving DecidableEq, Repr

/-- The tuple returned by `publish_animation`. -/
structure PublishResult where
  frame_count : Nat
  fps : ℚ
  rebuilt_frames : Nat
  changed_input_files : List String
  changed_frames : List String
deriving DecidableEq, Repr

/-- Everything `publish_animation` reads from the project directory, the
base background probe, and the CLI, plus the composited-bytes oracle for
the external raster engine. `outPathBase` is the path prefix that turns a
frame file name into its manifest line (output dir relative to repo
root, with trailing slash). -/
structure PublishInput where
  canvas_w : Nat
  canvas_h : Nat
  fps : ℚ
  layers : List Layer
  bg_w : Nat
  bg_h : Nat
  left_ratio : ℚ
  data_sig : String
  camera_sig : Option String
  outPathBase : String
  compositeBytes : String → String

instance {ε α : Type} [DecidableEq ε] [DecidableEq α] : DecidableEq (Except ε α) := fun x y =>
  match x, y with
  | .ok a, .ok b => if h : a = b then .isTrue (by rw [h]) else .isFalse (by simp [h])
  | .error e, .error f => if h : e = f then .isTrue (by rw [h]) else .isFalse (by simp [h])
  | .ok _, .error _ => .isFalse (by simp)
  | .error _, .ok _ => .isFalse (by simp)

/-! ## Python-dict association lists -/

/-- First-match lookup, Python `dict.get`. -/
def dictGet {α : Type} (k : String) (l : List (String × α)) : Option α :=
  (l.find? (fun p => p.1 == k)).map Prod.snd

/-- Insert-or-replace, Python `d[k] = v`. -/
def dictInsert {α : Type} (k : String) (v : α) (l : List (String × α)) : List (String × α) :=
  if l.any (fun p => p.1 == k) then l.map (fun p => if p.1 == k then (k, v) else p)
  else l ++ [(k, v)]

/-- Key list of an association list. -/
def dictKeys {α : Type} (l : List (String × α)) : List String :=
  l.map Prod.fst

/-! ## Numeric helpers -/

/-- Python `int(x)` on a float: truncation toward zero. -/
def pyInt (q : ℚ) : Int :=
  if 0 ≤ q then ⌊q⌋ else ⌈q⌉

/-- Deterministic fixed-point rendering of a rational with `d` decimal
places, modelling Python's f"{x:.{d}f}". -/
def fmtFixed (d : Nat) (q : ℚ) : String :=
  let n : Int := round (q * ((10 : ℚ) ^ d))
  let sign := if n < 0 then "-" else ""
  let m := n.natAbs
  let ip := m / 10 ^ d
  let fp := m % 10 ^ d
  let fs := toString fp
  let fs := String.mk (List.replicate (d - fs.length) (Char.ofNat 48)) ++ fs
  sign ++ toString ip ++ "." ++ fs

/-! ## Schedule parsing (parse_layer_entries) -/

/-- Python `str.strip()` on a character list: drop leading and trailing
whitespace. -/
def pyStrip (l : List Char) : List Char :=
  ((l.dropWhile Char.isWhitespace).reverse.dropWhile Char.isWhitespace).reverse

/-- Python `str.split(sep)` for a one-character separator: split at every
occurrence, keeping empty pieces ("".split gives one empty piece). -/
def pySplit (sep : Char) : List Char → List (List Char)
  | [] => [[]]
  | c :: rest =>
      match pySplit sep rest with
      | h :: t => if c = sep then [] :: h :: t else (c :: h) :: t
      | [] => [[c]]

/-- Python `str.isdigit` restricted to ASCII: nonempty and all digits. -/
def pyIsDigit (l : List Char) : Bool :=
  !l.isEmpty && l.all Char.isDigit

/-- Python `int(s)` for a digit string. -/
def digitsToNat (l : List Char) : Nat :=
  l.foldl (fun n c => n * 10 + (c.toNat - 48)) 0

/-- One iteration of the parsing loop in `parse_layer_entries`:
strip the line, split on ":", require the first two tokens to be digit
strings, clamp duration to at least 1. -/
def parse_schedule_line (raw : String) : Option LayerEntry :=
  let line := pyStrip raw.toList
  match pySplit ':' line with
  | p0 :: p1 :: _ =>
      if pyIsDigit p0 && pyIsDigit p1 then
        some { start := digitsToNat p0, duration := max 1 (digitsToNat p1) }
      else none
  | _ => none

/-- Stable insertion of one element into a sorted list: the new element
goes after every existing element that is ≤ it. -/
def insertSorted {α : Type} (le : α → α → Bool) (x : α) : List α → List α
  | [] => [x]
  | y :: ys => if le y x then y :: insertSorted le x ys else x :: y :: ys

/-- Stable sort (Python `list.sort` / `sorted`) by repeated insertion. -/
def stableSort {α : Type} (le : α → α → Bool) (l : List α) : List α :=
  l.foldl (fun acc x => insertSorted le x acc) []

/-- `parse_layer_entries`: parse the layerData.txt lines; if any entries
parsed, sort them by start (Python's stable sort); otherwise fall back to
one duration-1 entry per numerically-named png in the layer folder
(`fallback_png_stems`, in sorted glob order). -/
def parse_layer_entries (lines : List String) (fallback_png_stems : List Nat) : List LayerEntry :=
  let entries := lines.filterMap parse_schedule_line
  if entries.isEmpty then
    fallback_png_stems.map (fun s => { start := s, duration := 1 })
  else
    stableSort (fun a b => a.start ≤ b.start) entries

/-! ## Timeline queries -/

/-- `active_cel_start`: scan all entries in order; the last entry covering
`frame_idx` wins. -/
def active_cel_start (entries : List LayerEntry) (frame_idx : Nat) : Option Nat :=
  entries.foldl
    (fun active entry =>
      if entry.start ≤ frame_idx ∧ frame_idx < entry.start + entry.duration then
        some entry.start
      else active)
    none

/-- `timeline_frame_count`: one past the highest start+duration-1 over all
entries of all layers, starting from -1 (so 0 when there are no entries). -/
def timeline_frame_count (layers : List Layer) : Int :=
  (layers.foldl
    (fun m layer =>
      layer.entries.foldl (fun m2 e => max m2 ((e.start : Int) + (e.duration : Int) - 1)) m)
    (-1)) + 1

/-! ## Alpha-bbox pixel scan (the pure core of detect_alpha_bbox) -/

/-- Alpha byte of pixel (x, y) in a raw RGBA buffer of the given width:
`data[y*width*4 + x*4 + 3]`. -/
def alphaAt (data : Nat → Nat) (width x y : Nat) : Nat :=
  data (y * width * 4 + x * 4 + 3)

/-- One pixel step of the scan loop in `detect_alpha_bbox`: update
(min_x, min_y, max_x, max_y) if the alpha strictly exceeds the threshold. -/
def scanPixel (t : Nat) (alpha : Nat) (x y : Nat)
    (acc : Int × Int × Int × Int) : Int × Int × Int × Int :=
  if alpha > t then
    (if (x : Int) < acc.1 then (x : Int) else acc.1,
     if (y : Int) < acc.2.1 then (y : Int) else acc.2.1,
     if (x : Int) > acc.2.2.1 then (x : Int) else acc.2.2.1,
     if (y : Int) > acc.2.2.2 then (y : Int) else acc.2.2.2)
  else acc

/-- The pixel scan of `detect_alpha_bbox` over a decoded raw RGBA buffer:
min/max over all pixels whose alpha strictly exceeds the threshold,
returning (x, y, w, h), or none when no pixel qualifies. -/
def detect_alpha_bbox (width height : Nat) (data : Nat → Nat) (alpha_threshold : Nat) :
    Option (Int × Int × Int × Int) :=
  let init : Int × Int × Int × Int := ((width : Int), (height : Int), -1, -1)
  let res := (List.range height).foldl
    (fun acc y =>
      (List.range width).foldl
        (fun acc2 x => scanPixel alpha_threshold (alphaAt data width x y) x y acc2) acc)
    init
  if res.2.2.1 < res.1 ∨ res.2.2.2 < res.2.1 then none
  else some (res.1, res.2.1, res.2.2.1 - res.1 + 1, res.2.2.2 - res.2.1 + 1)

/-- Scan-order pixel coordinate grid (row major), used to state what the
nested loops of `detect_alpha_bbox` range over. -/
def gridPixels (width height : Nat) : List (Nat × Nat) :=
  (List.range height).flatMap (fun y => (List.range width).map (fun x => (x, y)))

/-- The scan step as a function of the pixel pair (proof infrastructure
for flattening the nested loops). -/
def pixStep (data : Nat → Nat) (width t : Nat)
    (acc : Int × Int × Int × Int) (p : Nat × Nat) : Int × Int × Int × Int :=
  scanPixel t (alphaAt data width p.1 p.2) p.1 p.2 acc

/-- The pixels an ideal detector must bound, following the spec words:
every pixel whose alpha strictly exceeds the threshold. -/
def opaquePixels (width height : Nat) (data : Nat → Nat) (t : Nat) : List (Nat × Nat) :=
  (gridPixels width height).filter (fun p => alphaAt data width p.1 p.2 > t)

/-! ## Frame naming and output-directory scanning -/

/-- Python f"{n:04d}": zero-pad the decimal representation to width 4. -/
def pad4 (n : Nat) : String :=
  let s := toString n
  if s.length < 4 then String.mk (List.replicate (4 - s.length) (Char.ofNat 48)) ++ s else s

/-- Output frame file name f"frame-{idx:04d}.png". -/
def frameName (idx : Nat) : String :=
  "frame-" ++ pad4 idx ++ ".png"

/-- Cel file path relative to the project dir: layer directory / 4-digit
start index .png. -/
def celPath (dir : String) (start : Nat) : String :=
  dir ++ "/" ++ pad4 start ++ ".png"

/-- The glob pattern "frame-*.png" used by the leftover sweep. -/
def isFramePatternName (name : String) : Bool :=
  "frame-".toList.isPrefixOf name.toList && ".png".toList.isSuffixOf name.toList

/-! ## Active frames and their signatures -/

/-- The cel file for a given start index in a layer, if it exists on disk
(`candidate.exists()`). -/
def findCel (layer : Layer) (s : Nat) : Option Cel :=
  layer.cels.find? (fun c => c.start == s)

/-- The active cels of one output frame with their project-relative
paths, in layer order: for each layer, the cel of the active entry,
provided the cel file exists. -/
def activeCelsWithPath (layers : List Layer) (idx : Nat) : List (String × Cel) :=
  layers.filterMap (fun layer =>
    (active_cel_start layer.entries idx).bind (fun s =>
      (findCel layer s).map (fun c => (celPath layer.directory s, c))))

/-- The active cels of one output frame, in layer order. -/
def activeCelsOf (layers : List Layer) (idx : Nat) : List Cel :=
  (activeCelsWithPath layers idx).map Prod.snd

/-- `timeline_frame_count` as a Nat (only used once positivity has been
checked). -/
def frameCountN (inp : PublishInput) : Nat :=
  (timeline_frame_count inp.layers).toNat

/-- The frame indices with at least one active cel, in order. -/
def activeFrameIdxs (inp : PublishInput) : List Nat :=
  (List.range (frameCountN inp)).filter (fun i => !(activeCelsOf inp.layers i).isEmpty)

/-- The `frame_names` list built by the frame loop. -/
def activeFrameNames (inp : PublishInput) : List String :=
  (activeFrameIdxs inp).map frameName

/-- The content signature of one frame: the "|"-joined file signatures of
its active cels. -/
def frameSig (inp : PublishInput) (idx : Nat) : String :=
  String.intercalate "|" ((activeCelsOf inp.layers idx).map Cel.sig)

/-- The `current_frame_sigs` dict: frame name -> frame signature, built in
frame order. -/
def currentFrameSigs (inp : PublishInput) : List (String × String) :=
  (activeFrameIdxs inp).foldl (fun d i => dictInsert (frameName i) (frameSig inp i) d) []

/-! ## Tracked input files -/

/-- The `current_inputs` dict built by `track_input` calls: data.txt, an
optional camera.txt, each layer's layerData.txt, then every cel of every
active frame, keyed by project-relative path with a size:mtime value. -/
def currentInputs (inp : PublishInput) : List (String × String) :=
  let d0 := dictInsert "data.txt" inp.data_sig []
  let d1 := match inp.camera_sig with
    | some s => dictInsert "camera.txt" s d0
    | none => d0
  let d2 := inp.layers.foldl
    (fun acc layer =>
      match layer.layerDataSig with
      | some s => dictInsert (layer.directory ++ "/layerData.txt") s acc
      | none => acc)
    d1
  (activeFrameIdxs inp).foldl
    (fun acc i =>
      (activeCelsWithPath inp.layers i).foldl
        (fun acc2 pc => dictInsert pc.1 pc.2.isig acc2) acc)
    d2

/-- The `changed_input_files` report: current entries whose signature is
new or different, plus "(removed) " markers for dropped paths, sorted. -/
def changedInputFilesOf (cur prev : List (String × String)) : List String :=
  stableSort (fun a b => a ≤ b)
    (((cur.filter (fun p => decide (dictGet p.1 prev ≠ some p.2))).map Prod.fst)
      ++ ((prev.filter (fun p => decide (dictGet p.1 cur = none))).map
            (fun p => "(removed) " ++ p.1)))

/-! ## Per-cel bbox resolution and the union loop -/

/-- The cache-hit branch of the union loop: a cached 4-int list is reused
and re-stored (`isinstance(cached_bbox, list) and len(cached_bbox) == 4`);
anything else (null or junk) yields no bbox and stores null. -/
def resolveFromCache : Option (List Int) →
    Option (List Int) × Option (Int × Int × Int × Int)
  | some [a, b, w, h] => (some [a, b, w, h], some (a, b, w, h))
  | _ => (none, none)

/-- Resolve one cel against the previous bbox cache, as in the union loop:
a cache miss runs the detector and stores its result; a cache hit goes
through `resolveFromCache`. Returns (value stored in the new cache, bbox
used for the union). -/
def resolveCel (prevC : List (String × Option (List Int))) (c : Cel) :
    Option (List Int) × Option (Int × Int × Int × Int) :=
  match dictGet c.sig prevC with
  | none =>
      match c.bbox with
      | none => (none, none)
      | some (a, b, w, h) =>
          (some [(a : Int), (b : Int), (w : Int), (h : Int)],
           some ((a : Int), (b : Int), (w : Int), (h : Int)))
  | some v => resolveFromCache v

/-- Union of two bboxes, as computed inline in the loop. -/
def unionAcc (u : Int × Int × Int × Int) (b : Int × Int × Int × Int) :
    Int × Int × Int × Int :=
  let x0 := min u.1 b.1
  let y0 := min u.2.1 b.2.1
  let x1 := max (u.1 + u.2.2.1) (b.1 + b.2.2.1)
  let y1 := max (u.2.1 + u.2.2.2) (b.2.1 + b.2.2.2)
  (x0, y0, x1 - x0, y1 - y0)

/-- The candidate cels the union loop iterates over: for each layer, for
each entry, the cel file of the entry's start index when it exists,
tagged with its path (the `seen_cels` dedup key). -/
def celCandidates (layers : List Layer) : List (String × Cel) :=
  layers.flatMap (fun layer =>
    layer.entries.filterMap (fun e =>
      (findCel layer e.start).map (fun c => (celPath layer.directory e.start, c))))

/-- Accumulate an optional bbox into the running optional union, as the
loop tail does (`if source_bbox_union is None ... else` union). -/
def unionOpt (u : Option (Int × Int × Int × Int)) :
    Option (Int × Int × Int × Int) → Option (Int × Int × Int × Int)
  | none => u
  | some bb =>
      match u with
      | none => some bb
      | some u0 => some (unionAcc u0 bb)

/-- One iteration of the union loop, threading (seen paths, new cache,
running union). -/
def bboxFoldStep (prevC : List (String × Option (List Int)))
    (st : List String × List (String × Option (List Int)) × Option (Int × Int × Int × Int))
    (item : String × Cel) :
    List String × List (String × Option (List Int)) × Option (Int × Int × Int × Int) :=
  if st.1.contains item.1 then st
  else
    (item.1 :: st.1,
     dictInsert item.2.sig (resolveCel prevC item.2).1 st.2.1,
     unionOpt st.2.2 (resolveCel prevC item.2).2)

/-- The full union loop over all candidate cels. -/
def bboxFoldResult (inp : PublishInput) (prevC : List (String × Option (List Int))) :
    List String × List (String × Option (List Int)) × Option (Int × Int × Int × Int) :=
  (celCandidates inp.layers).foldl (bboxFoldStep prevC) ([], [], none)

/-- First-occurrence deduplication of candidate cels by path, mirroring
the `seen_cels` set (proof infrastructure). -/
def dedupBy (seen : List String) : List (String × Cel) → List (String × Cel)
  | [] => []
  | it :: t =>
      if seen.contains it.1 then dedupBy seen t
      else it :: dedupBy (it.1 :: seen) t

/-- The union-loop step on the (cache, union) components only, once the
seen-set dedup has been factored out (proof infrastructure). -/
def bboxPureStep (prevC : List (String × Option (List Int)))
    (cu : List (String × Option (List Int)) × Option (Int × Int × Int × Int))
    (item : String × Cel) :
    List (String × Option (List Int)) × Option (Int × Int × Int × Int) :=
  (dictInsert item.2.sig (resolveCel prevC item.2).1 cu.1,
   unionOpt cu.2 (resolveCel prevC item.2).2)

/-- Distinct cel files have distinct content signatures. This holds for
the real `file_signature`, which embeds the absolute file path. -/
def distinctCelSigs (inp : PublishInput) : Prop :=
  ((dedupBy [] (celCandidates inp.layers)).map (fun it => it.2.sig)).Nodup

/-- The bbox cache written into the next state. -/
def newBBoxCache (inp : PublishInput) (prevC : List (String × Option (List Int))) :
    List (String × Option (List Int)) :=
  (bboxFoldResult inp prevC).2.1

/-- The union of all per-cel bboxes, none when no cel yielded one. -/
def sourceBBoxUnion (inp : PublishInput) (prevC : List (String × Option (List Int))) :
    Option (Int × Int × Int × Int) :=
  (bboxFoldResult inp prevC).2.2

/-- `source_bbox_union` after the fallback: the full canvas rectangle when
no cel yielded a non-empty bbox. -/
def source_bbox (inp : PublishInput) (prevC : List (String × Option (List Int))) :
    Int × Int × Int × Int :=
  match sourceBBoxUnion inp prevC with
  | none => (0, 0, (inp.canvas_w : Int), (inp.canvas_h : Int))
  | some b => b

/-! ## Crop-window geometry -/

/-- `left_width = max(1, int(bg_w * left_ratio))`. -/
def leftWidth (inp : PublishInput) : Nat :=
  (max 1 (pyInt ((inp.bg_w : ℚ) * inp.left_ratio))).toNat

/-- The crop-window computation of publish_animation lines 568-582:
scale = max(left_width/canvas_w, bg_h/canvas_h); corners mapped with
int() truncation, the upper corners via the `+ 0.9999` idiom; lower
corners clamped at 0, upper corners at the panel bounds; degenerate
rectangles fall back to the full panel. -/
def cropWindow (src : Int × Int × Int × Int) (left_width bg_h canvas_w canvas_h : Nat) :
    Int × Int × Int × Int :=
  let scale : ℚ := max ((left_width : ℚ) / (canvas_w : ℚ)) ((bg_h : ℚ) / (canvas_h : ℚ))
  let mapped_x0 := max 0 (pyInt ((src.1 : ℚ) * scale))
  let mapped_y0 := max 0 (pyInt ((src.2.1 : ℚ) * scale))
  let mapped_x1 := min (left_width : Int) (pyInt (((src.1 + src.2.2.1 : Int) : ℚ) * scale + (9999 : ℚ) / 10000))
  let mapped_y1 := min (bg_h : Int) (pyInt (((src.2.1 + src.2.2.2 : Int) : ℚ) * scale + (9999 : ℚ) / 10000))
  if mapped_x1 ≤ mapped_x0 ∨ mapped_y1 ≤ mapped_y0 then
    (0, 0, (left_width : Int), (bg_h : Int))
  else
    (mapped_x0, mapped_y0, mapped_x1 - mapped_x0, mapped_y1 - mapped_y0)

/-- The crop window as the spec sentence states it: corners mapped with
floor/ceil and clamped into the panel rectangle, with the same degenerate
fallback. Stated from the spec's words for comparison with `cropWindow`. -/
def cropWindowSpec (src : Int × Int × Int × Int) (left_width bg_h canvas_w canvas_h : Nat) :
    Int × Int × Int × Int :=
  let scale : ℚ := max ((left_width : ℚ) / (canvas_w : ℚ)) ((bg_h : ℚ) / (canvas_h : ℚ))
  let x0 := min (left_width : Int) (max 0 ⌊(src.1 : ℚ) * scale⌋)
  let y0 := min (bg_h : Int) (max 0 ⌊(src.2.1 : ℚ) * scale⌋)
  let x1 := min (left_width : Int) (max 0 ⌈((src.1 + src.2.2.1 : Int) : ℚ) * scale⌉)
  let y1 := min (bg_h : Int) (max 0 ⌈((src.2.1 + src.2.2.2 : Int) : ℚ) * scale⌉)
  if x1 ≤ x0 ∨ y1 ≤ y0 then
    (0, 0, (left_width : Int), (bg_h : Int))
  else
    (x0, y0, x1 - x0, y1 - y0)

/-- The crop window with the int() truncations written as floors, valid
for non-negative source rectangles: the amended form of the claim. -/
def cropWindowFloor (src : Int × Int × Int × Int) (left_width bg_h canvas_w canvas_h : Nat) :
    Int × Int × Int × Int :=
  let scale : ℚ := max ((left_width : ℚ) / (canvas_w : ℚ)) ((bg_h : ℚ) / (canvas_h : ℚ))
  let mapped_x0 := max 0 ⌊(src.1 : ℚ) * scale⌋
  let mapped_y0 := max 0 ⌊(src.2.1 : ℚ) * scale⌋
  let mapped_x1 := min (left_width : Int) ⌊((src.1 + src.2.2.1 : Int) : ℚ) * scale + (9999 : ℚ) / 10000⌋
  let mapped_y1 := min (bg_h : Int) ⌊((src.2.1 + src.2.2.2 : Int) : ℚ) * scale + (9999 : ℚ) / 10000⌋
  if mapped_x1 ≤ mapped_x0 ∨ mapped_y1 ≤ mapped_y0 then
    (0, 0, (left_width : Int), (bg_h : Int))
  else
    (mapped_x0, mapped_y0, mapped_x1 - mapped_x0, mapped_y1 - mapped_y0)

/-- The crop rectangle of a cycle, as a 4-tuple. -/
def cropRect (inp : PublishInput) (prevC : List (String × Option (List Int))) :
    Int × Int × Int × Int :=
  cropWindow (source_bbox inp prevC) (leftWidth inp) inp.bg_h inp.canvas_w inp.canvas_h

/-- The crop rectangle as the `crop` list stored in state and compared to
the previous one. -/
def cropOf (inp : PublishInput) (prevC : List (String × Option (List Int))) : List Int :=
  [(cropRect inp prevC).1, (cropRect inp prevC).2.1,
   (cropRect inp prevC).2.2.1, (cropRect inp prevC).2.2.2]

/-! ## Global signature, state load, force_full -/

/-- The global signature string folding canvas size, background size,
panel width, left ratio, fps and frame count. -/
def globalSig (inp : PublishInput) : String :=
  "canvas=" ++ toString inp.canvas_w ++ "x" ++ toString inp.canvas_h ++
  "|bg=" ++ toString inp.bg_w ++ "x" ++ toString inp.bg_h ++
  "|left_width=" ++ toString (leftWidth inp) ++
  "|left_ratio=" ++ fmtFixed 6 inp.left_ratio ++
  "|fps=" ++ fmtFixed 6 inp.fps ++
  "|frames=" ++ toString (activeFrameNames inp).length

/-- `default_publish_state()`: version 1, empty signature, empty crop,
empty dicts (which are dicts, hence `some []`). -/
def default_publish_state : PublishState :=
  { version := 1, global_sig := "", crop := [], frames := some [],
    input_files := some [], cel_bbox_cache := some [] }

/-- `load_publish_state`: default when the file is absent/unreadable or
its version does not match. -/
def load_publish_state : Option PublishState → PublishState
  | none => default_publish_state
  | some st => if st.version = 1 then st else default_publish_state

/-- The previous state a cycle starts from. -/
def prevStateOf (dir0 : OutDir) : PublishState :=
  load_publish_state dir0.state

/-- `prev_frames`: the previous frames dict, empty when non-dict. -/
def prevFramesOf (dir0 : OutDir) : List (String × String) :=
  (prevStateOf dir0).frames.getD []

/-- `prev_bbox_cache`: the previous bbox cache, empty when non-dict. -/
def prevCacheOf (dir0 : OutDir) : List (String × Option (List Int)) :=
  (prevStateOf dir0).cel_bbox_cache.getD []

/-- The crop list computed in this cycle. -/
def cropRun (inp : PublishInput) (dir0 : OutDir) : List Int :=
  cropOf inp (prevCacheOf dir0)

/-- `force_full`: global signature changed, or crop changed, or the
previous frames field was not a dict. -/
def forceFullRun (inp : PublishInput) (dir0 : OutDir) : Bool :=
  decide ((prevStateOf dir0).global_sig ≠ globalSig inp) ||
  decide ((prevStateOf dir0).crop ≠ cropRun inp dir0) ||
  decide ((prevStateOf dir0).frames = none)

/-! ## Deletions, staleness, writes -/

/-- `removed_frames`: names in the previous frames dict that are not
current active frame names. -/
def removedFramesRun (inp : PublishInput) (dir0 : OutDir) : List String :=
  (dictKeys (prevFramesOf dir0)).filter
    (fun name => decide (dictGet name (currentFrameSigs inp) = none))

/-- `Path.unlink` of one name (all directory entries with that name). -/
def unlinkFile (name : String) (files : List (String × String)) : List (String × String) :=
  files.filter (fun p => decide (p.1 ≠ name))

/-- The directory after the removed-frames unlink loop. -/
def afterRemoved (inp : PublishInput) (dir0 : OutDir) : List (String × String) :=
  (removedFramesRun inp dir0).foldl (fun fs name => unlinkFile name fs) dir0.files

/-- The directory after the "frame-*.png" leftover sweep. -/
def afterSweep (inp : PublishInput) (dir0 : OutDir) : List (String × String) :=
  (afterRemoved inp dir0).filter
    (fun p => !(isFramePatternName p.1 && decide (dictGet p.1 (currentFrameSigs inp) = none)))

/-- The stale frame indices: force_full, or the previous signature for the
frame's name differs from the current one, or the output file is missing
on disk (checked after the sweep, as in the code). -/
def changedIdxsRun (inp : PublishInput) (dir0 : OutDir) : List Nat :=
  (activeFrameIdxs inp).filter
    (fun i =>
      forceFullRun inp dir0 ||
      decide (dictGet (frameName i) (prevFramesOf dir0) ≠ dictGet (frameName i) (currentFrameSigs inp)) ||
      decide (dictGet (frameName i) (afterSweep inp dir0) = none))

/-- `changed_frames` as a name list. -/
def changedFramesRun (inp : PublishInput) (dir0 : OutDir) : List String :=
  (changedIdxsRun inp dir0).map frameName

/-- The rebuild loop's effect on the published directory: each stale frame
is composited and its final cropped bytes written directly to the
published output path (only the flatten/panel intermediates live in the
scratch directory). -/
def writeFrames (inp : PublishInput) (files : List (String × String)) (names : List String) :
    List (String × String) :=
  names.foldl (fun fs name => dictInsert name (inp.compositeBytes name) fs) files

/-- The published directory visible after the deletions, the sweep, and
the first `k` stale-frame recompositions — i.e. the observable output
tree when the cycle is interrupted at that point, before the manifest
and state writes. -/
def publishPrefix (inp : PublishInput) (dir0 : OutDir) (k : Nat) : OutDir :=
  { files := writeFrames inp (afterSweep inp dir0) ((changedFramesRun inp dir0).take k),
    state := dir0.state }

/-! ## Manifest and next state -/

/-- The per-frame manifest lines: one repo-relative path per active frame,
in ascending frame order. -/
def manifestFrameLines (inp : PublishInput) : List String :=
  (activeFrameNames inp).map (fun n => inp.outPathBase ++ n)

/-- All manifest lines: comment, fps, the four overlay ratios (crop
rectangle as fractions of the background size), then the frame paths. -/
def manifestLinesRun (inp : PublishInput) (dir0 : OutDir) : List String :=
  ["# auto-generated by roughanimator_auto_publish.py",
   "fps=" ++ toString inp.fps,
   "overlay_x_ratio=" ++ fmtFixed 8 (((cropRect inp (prevCacheOf dir0)).1 : ℚ) / (inp.bg_w : ℚ)),
   "overlay_y_ratio=" ++ fmtFixed 8 (((cropRect inp (prevCacheOf dir0)).2.1 : ℚ) / (inp.bg_h : ℚ)),
   "overlay_w_ratio=" ++ fmtFixed 8 (((cropRect inp (prevCacheOf dir0)).2.2.1 : ℚ) / (inp.bg_w : ℚ)),
   "overlay_h_ratio=" ++ fmtFixed 8 (((cropRect inp (prevCacheOf dir0)).2.2.2 : ℚ) / (inp.bg_h : ℚ))]
  ++ manifestFrameLines inp

/-- The manifest.txt byte content. -/
def manifestContent (inp : PublishInput) (dir0 : OutDir) : String :=
  String.intercalate "\n" (manifestLinesRun inp dir0) ++ "\n"

/-- The state persisted at the end of a successful cycle. -/
def nextStateRun (inp : PublishInput) (dir0 : OutDir) : PublishState :=
  { version := 1,
    global_sig := globalSig inp,
    crop := cropRun inp dir0,
    frames := some (currentFrameSigs inp),
    input_files := some (currentInputs inp),
    cel_bbox_cache := some (newBBoxCache inp (prevCacheOf dir0)) }

/-! ## The publish cycle -/

/-- `publish_animation`: one full publish cycle over the model directory.
Configuration errors (no layers, zero frame count, no active frames) and
the zero-division failure points of the float arithmetic are `.error`;
a successful cycle returns the final directory and the result tuple.
Directory effects of interrupted/failed cycles are modelled by
`publishPrefix`. -/
def publish_animation (inp : PublishInput) (dir0 : OutDir) :
    Except String (OutDir × PublishResult) :=
  if inp.layers.isEmpty then .error "no drawable layers found"
  else if timeline_frame_count inp.layers ≤ 0 then .error "timeline frame count is zero"
  else if (activeFrameNames inp).isEmpty then .error "no output frames produced"
  else if inp.canvas_w = 0 ∨ inp.canvas_h = 0 then .error "division by zero"
  else if inp.bg_w = 0 ∨ inp.bg_h = 0 then .error "division by zero"
  else
    .ok ({ files := dictInsert "manifest.txt" (manifestContent inp dir0)
             (writeFrames inp (afterSweep inp dir0) (changedFramesRun inp dir0)),
           state := some (nextStateRun inp dir0) },
         { frame_count := (activeFrameNames inp).length,
           fps := inp.fps,
           rebuilt_frames := (changedFramesRun inp dir0).length,
           changed_input_files :=
             changedInputFilesOf (currentInputs inp) ((prevStateOf dir0).input_files.getD []),
           changed_frames := changedFramesRun inp dir0 })

/-! ## Concrete instances used to evaluate the development -/

/-- A two-frame layer: entries (0,1) and (1,1), both cel files present. -/
def sampleLayer : Layer :=
  { directory := "01", layerDataSig := some "ld1",
    entries := [⟨0, 1⟩, ⟨1, 1⟩],
    cels := [⟨0, "p0:10:100", "10:100", some (0, 0, 1, 1)⟩,
             ⟨1, "p1:11:101", "11:101", some (1, 1, 1, 1)⟩] }

/-- A small two-frame project: 2x2 canvas, 2x2 background, left ratio 1/2. -/
def sampleInput : PublishInput :=
  { canvas_w := 2, canvas_h := 2, fps := 8, layers := [sampleLayer],
    bg_w := 2, bg_h := 2, left_ratio := 1/2,
    data_sig := "5:50", camera_sig := none,
    outPathBase := "resources/fiction/anim/voiture/",
    compositeBytes := fun n => "BYTES:" ++ n }

/-- An empty published directory with no state file. -/
def sampleDir0 : OutDir := { files := [], state := none }

/-- The directory after one successful publish cycle on `sampleInput`. -/
def sampleDir1 : OutDir :=
  match publish_animation sampleInput sampleDir0 with
  | .ok (d, _) => d
  | .error _ => sampleDir0

/-- The result of that first cycle. -/
def sampleRes : PublishResult :=
  match publish_animation sampleInput sampleDir0 with
  | .ok (_, r) => r
  | .error _ => { frame_count := 0, fps := 0, rebuilt_frames := 0,
                  changed_input_files := [], changed_frames := [] }

/-- The result of the second cycle on the unchanged project. -/
def sampleRes2 : PublishResult :=
  match publish_animation sampleInput sampleDir1 with
  | .ok (_, r) => r
  | .error _ => { frame_count := 0, fps := 0, rebuilt_frames := 0,
                  changed_input_files := [], changed_frames := [] }

/-- A published directory holding previously published bytes for both
frames, with no readable state file (so the cycle is a forced full
rebuild of both frames). -/
def cexDir0 : OutDir :=
  { files := [("frame-0000.png", "OLD0"), ("frame-0001.png", "OLD1")], state := none }

/-- An input with no drawable layers. -/
def emptyInput : PublishInput :=
  { canvas_w := 2, canvas_h := 2, fps := 8, layers := [],
    bg_w := 2, bg_h := 2, left_ratio := 1/2,
    data_sig := "5:50", camera_sig := none,
    outPathBase := "out/",
    compositeBytes := fun n => n }

/-- A layer whose schedule parsed no rows at all. -/
def entrylessLayer : Layer :=
  { directory := "02", layerDataSig := some "ld2", entries := [], cels := [] }

/-- An input whose single layer has no schedule entries. -/
def entrylessInput : PublishInput :=
  { canvas_w := 2, canvas_h := 2, fps := 8, layers := [entrylessLayer],
    bg_w := 2, bg_h := 2, left_ratio := 1/2,
    data_sig := "5:50", camera_sig := none,
    outPathBase := "out/",
    compositeBytes := fun n => n }

/-! # Theorems -/

/-! ## Association-list lemmas -/

theorem find?_cons_true {α : Type} (p : α → Bool) (a : α) (l : List α) (h : p a = true) :
    (a :: l).find? p = some a := by
  simp [List.find?_cons, h]

theorem find?_cons_false {α : Type} (p : α → Bool) (a : α) (l : List α) (h : p a = false) :
    (a :: l).find? p = l.find? p := by
  simp [List.find?_cons, h]

theorem dictGet_insert_self {α : Type} (k : String) (v : α) (l : List (String × α)) :
    dictGet k (dictInsert k v l) = some v := by
  unfold dictGet dictInsert
  by_cases h : l.any (fun p => p.1 == k)
  · rw [if_pos h]
    induction l with
    | nil => simp at h
    | cons a t ih =>
        by_cases ha : (a.1 == k) = true
        · rw [List.map_cons, if_pos ha, find?_cons_true _ _ _ (by simp)]
          rfl
        · rw [List.map_cons, if_neg (by simp [ha]), find?_cons_false _ _ _ (by simpa using ha)]
          simp only [List.any_cons, Bool.or_eq_true] at h
          rcases h with h | h
          · exact absurd h ha
          · exact ih h
  · rw [if_neg h, List.find?_append]
    have hnone : l.find? (fun p => p.1 == k) = none := by
      rw [List.find?_eq_none]
      intro p hp hpk
      exact h (List.any_eq_true.mpr ⟨p, hp, hpk⟩)
    rw [hnone]
    simp [find?_cons_true (fun p => p.1 == k) (k, v) [] (by simp), Option.or]

theorem find?_map_replace {α : Type} (k k' : String) (v : α) (l : List (String × α))
    (h : k' ≠ k) :
    List.find? (fun p => p.1 == k') (l.map (fun p => if p.1 == k then (k, v) else p)) =
      List.find? (fun p => p.1 == k') l := by
  induction l with
  | nil => rfl
  | cons a t ih =>
      by_cases ha : (a.1 == k) = true
      · have haeq : a.1 = k := by simpa using ha
        rw [List.map_cons, if_pos ha,
            find?_cons_false (fun p => p.1 == k') (k, v) _ (by simp [Ne.symm h]),
            find?_cons_false (fun p => p.1 == k') a t (by simp [haeq, Ne.symm h])]
        exact ih
      · rw [List.map_cons, if_neg (by simp [ha])]
        by_cases hk' : (a.1 == k') = true
        · rw [find?_cons_true (fun p => p.1 == k') a _ hk',
              find?_cons_true (fun p => p.1 == k') a t hk']
        · rw [find?_cons_false (fun p => p.1 == k') a _ (by simpa using hk'),
              find?_cons_false (fun p => p.1 == k') a t (by simpa using hk')]
          exact ih

theorem dictGet_insert_ne {α : Type} (k k' : String) (v : α) (l : List (String × α))
    (h : k' ≠ k) : dictGet k' (dictInsert k v l) = dictGet k' l := by
  unfold dictGet dictInsert
  by_cases hA : l.any (fun p => p.1 == k)
  · rw [if_pos hA, find?_map_replace k k' v l h]
  · rw [if_neg hA, List.find?_append]
    have hone : List.find? (fun p => p.1 == k') [(k, v)] = none :=
      find?_cons_false (fun p => p.1 == k') (k, v) [] (by simp [Ne.symm h])
    cases hf : l.find? (fun p => p.1 == k') <;> simp [Option.or, hone, hf]

theorem dictGet_eq_none_iff {α : Type} (k : String) (l : List (String × α)) :
    dictGet k l = none ↔ k ∉ dictKeys l := by
  unfold dictGet dictKeys
  rw [Option.map_eq_none', List.find?_eq_none]
  constructor
  · intro h hk
    obtain ⟨p, hp, hpk⟩ := List.mem_map.mp hk
    have := h p hp
    simp [hpk] at this
  · intro h p hp hpk
    have hp1 : p.1 = k := by simpa using hpk
    exact h (List.mem_map.mpr ⟨p, hp, hp1⟩)

theorem find?_filter_keep {α : Type} (l : List (String × α)) (keep : String × α → Bool)
    (k : String) (h : ∀ p, p ∈ l → p.1 = k → keep p = true) :
    (l.filter keep).find? (fun p => p.1 == k) = l.find? (fun p => p.1 == k) := by
  induction l with
  | nil => rfl
  | cons a t ih =>
      have iht := ih (fun p hp => h p (List.mem_cons_of_mem a hp))
      by_cases ha : (a.1 == k) = true
      · have hkeep : keep a = true := h a (by simp) (by simpa using ha)
        rw [List.filter_cons, if_pos hkeep,
            find?_cons_true (fun p => p.1 == k) a _ ha,
            find?_cons_true (fun p => p.1 == k) a t ha]
      · by_cases hk : keep a = true
        · rw [List.filter_cons, if_pos hk,
              find?_cons_false (fun p => p.1 == k) a _ (by simpa using ha),
              find?_cons_false (fun p => p.1 == k) a t (by simpa using ha)]
          exact iht
        · rw [List.filter_cons, if_neg hk,
              find?_cons_false (fun p => p.1 == k) a t (by simpa using ha)]
          exact iht

theorem dictGet_filter_keep {α : Type} (l : List (String × α)) (keep : String × α → Bool)
    (k : String) (h : ∀ p, p ∈ l → p.1 = k → keep p = true) :
    dictGet k (l.filter keep) = dictGet k l := by
  unfold dictGet
  rw [find?_filter_keep l keep k h]

theorem dictGet_filter_none {α : Type} (l : List (String × α)) (keep : String × α → Bool)
    (k : String) (h : ∀ p, p ∈ l → p.1 = k → keep p = false) :
    dictGet k (l.filter keep) = none := by
  unfold dictGet
  rw [Option.map_eq_none', List.find?_eq_none]
  intro p hp hpk
  have hmem := List.mem_filter.mp hp
  have hf := h p hmem.1 (by simpa using hpk)
  rw [hmem.2] at hf
  exact absurd hf (by simp)

theorem dictGet_none_of_filter {α : Type} (l : List (String × α)) (keep : String × α → Bool)
    (k : String) (h : dictGet k l = none) : dictGet k (l.filter keep) = none := by
  unfold dictGet at h ⊢
  rw [Option.map_eq_none', List.find?_eq_none] at h ⊢
  intro p hp
  exact h p (List.mem_filter.mp hp).1

theorem dictKeys_map_replace {α : Type} (k : String) (v : α) (l : List (String × α)) :
    dictKeys (l.map (fun p => if p.1 == k then (k, v) else p)) = dictKeys l := by
  unfold dictKeys
  rw [List.map_map]
  apply List.map_congr_left
  intro p _
  by_cases hpk : (p.1 == k) = true
  · have heq : p.1 = k := by simpa using hpk
    simp [hpk, heq]
  · have hne : ¬ p.1 = k := by simpa using hpk
    simp [hne]

theorem dictKeys_insert_mem {α : Type} (k k' : String) (v : α) (l : List (String × α)) :
    k' ∈ dictKeys (dictInsert k v l) ↔ k' = k ∨ k' ∈ dictKeys l := by
  unfold dictInsert
  by_cases hA : l.any (fun p => p.1 == k)
  · rw [if_pos hA, dictKeys_map_replace]
    obtain ⟨p0, hp0, hp0k⟩ := List.any_eq_true.mp hA
    have hk : k ∈ dictKeys l :=
      List.mem_map.mpr ⟨p0, hp0, by simpa using hp0k⟩
    constructor
    · exact fun h => Or.inr h
    · rintro (rfl | h)
      · exact hk
      · exact h
  · rw [if_neg hA]
    unfold dictKeys
    rw [List.map_append]
    simp [or_comm]

/-! ## Schedule parsing: C10 -/

theorem parse_schedule_line_duration (raw : String) (e : LayerEntry)
    (h : parse_schedule_line raw = some e) : 1 ≤ e.duration := by
  simp only [parse_schedule_line] at h
  rcases hs : pySplit ':' (pyStrip raw.toList) with _ | ⟨p0, t⟩
  · rw [hs] at h
    exact absurd h (by simp)
  · rcases t with _ | ⟨p1, rest⟩
    · rw [hs] at h
      exact absurd h (by simp)
    · rw [hs] at h
      dsimp only at h
      by_cases hd : (pyIsDigit p0 && pyIsDigit p1) = true
      · rw [if_pos hd] at h
        cases h
        exact le_max_left 1 _
      · rw [if_neg hd] at h
        exact absurd h (by simp)

theorem mem_insertSorted {α : Type} (le : α → α → Bool) (x a : α) (l : List α) :
    a ∈ insertSorted le x l ↔ a = x ∨ a ∈ l := by
  induction l with
  | nil => simp [insertSorted]
  | cons y ys ih =>
      unfold insertSorted
      by_cases hle : le y x
      · simp only [if_pos hle, List.mem_cons, ih]
        tauto
      · simp [if_neg hle, List.mem_cons]

theorem mem_stableSort {α : Type} (le : α → α → Bool) (a : α) (l : List α) :
    a ∈ stableSort le l ↔ a ∈ l := by
  unfold stableSort
  suffices h : ∀ (l acc : List α), a ∈ l.foldl (fun acc x => insertSorted le x acc) acc ↔
      a ∈ l ∨ a ∈ acc by
    simpa using h l []
  intro l
  induction l with
  | nil => simp
  | cons x t ih =>
      intro acc
      simp only [List.foldl_cons, ih, mem_insertSorted, List.mem_cons]
      tauto

/-- C10: every LayerEntry produced by schedule parsing has duration ≥ 1: a
line whose first two colon-separated tokens are digit strings is parsed
with its duration clamped to max(1, value) rather than skipped, so "3:0"
yields the entry (start 3, duration 1). -/
theorem parse_layer_entries_duration_ge_one :
    (∀ (lines : List String) (fallback : List Nat) (e : LayerEntry),
      e ∈ parse_layer_entries lines fallback → 1 ≤ e.duration) ∧
    (∀ (raw : String) (p0 p1 : List Char) (rest : List (List Char)),
      pySplit ':' (pyStrip raw.toList) = p0 :: p1 :: rest →
      pyIsDigit p0 = true → pyIsDigit p1 = true →
      parse_schedule_line raw =
        some { start := digitsToNat p0, duration := max 1 (digitsToNat p1) }) ∧
    parse_schedule_line "3:0" = some { start := 3, duration := 1 } := by
  refine ⟨?_, ?_, by decide⟩
  · intro lines fallback e h
    unfold parse_layer_entries at h
    by_cases hE : (lines.filterMap parse_schedule_line).isEmpty
    · rw [if_pos hE] at h
      obtain ⟨s, _, rfl⟩ := List.mem_map.mp h
      exact le_refl 1
    · rw [if_neg hE] at h
      rw [mem_stableSort] at h
      obtain ⟨raw, _, hp⟩ := List.mem_filterMap.mp h
      exact parse_schedule_line_duration raw e hp
  · intro raw p0 p1 rest hs h0 h1
    simp only [parse_schedule_line]
    rw [hs]
    simp [h0, h1]

/-- Witness for C10 at a concrete schedule line. -/
theorem parse_layer_entries_duration_ge_one_witness :
    ((⟨3, 1⟩ : LayerEntry) ∈ parse_layer_entries ["3:0"] []) ∧
    (1 : Nat) ≤ (⟨3, 1⟩ : LayerEntry).duration :=
  ⟨by decide, parse_layer_entries_duration_ge_one.1 ["3:0"] [] ⟨3, 1⟩ (by decide)⟩

/-! ## Tie-break query: C5 -/

theorem active_cel_start_foldl (entries : List LayerEntry) (idx : Nat) (acc : Option Nat) :
    entries.foldl
      (fun active entry =>
        if entry.start ≤ idx ∧ idx < entry.start + entry.duration then some entry.start
        else active) acc =
      match entries.reverse.find?
          (fun e => decide (e.start ≤ idx ∧ idx < e.start + e.duration)) with
      | some e => some e.start
      | none => acc := by
  induction entries generalizing acc with
  | nil => rfl
  | cons e t ih =>
      rw [List.foldl_cons, ih, List.reverse_cons, List.find?_append]
      by_cases hp : e.start ≤ idx ∧ idx < e.start + e.duration
      · rw [if_pos hp]
        cases hf : t.reverse.find? (fun e => decide (e.start ≤ idx ∧ idx < e.start + e.duration)) with
        | none =>
            rw [find?_cons_true _ _ _ (by simpa using hp)]
            rfl
        | some x => rfl
      · rw [if_neg hp]
        cases hf : t.reverse.find? (fun e => decide (e.start ≤ idx ∧ idx < e.start + e.duration)) with
        | none =>
            rw [find?_cons_false _ _ _ (by simpa using hp)]
            rfl
        | some x => rfl

/-- C5: for every start-sorted entry list and frame index,
`active_cel_start` returns the start of the last entry (in the sorted
order the list is kept in) that covers the index, or none when no entry
covers it; in particular with overlapping entries (0,5) and (3,5), frame
index 4 resolves to start 3, not 0. -/
theorem active_cel_start_last_match :
    (∀ (entries : List LayerEntry) (idx : Nat),
      List.Sorted (fun a b : LayerEntry => a.start ≤ b.start) entries →
      active_cel_start entries idx =
        ((entries.filter
            (fun e => decide (e.start ≤ idx ∧ idx < e.start + e.duration))).getLast?).map
          LayerEntry.start) ∧
    active_cel_start [⟨0, 5⟩, ⟨3, 5⟩] 4 = some 3 := by
  refine ⟨?_, by decide⟩
  intro entries idx _
  unfold active_cel_start
  rw [active_cel_start_foldl entries idx none]
  rw [List.getLast?_eq_head?_reverse, ← List.filter_reverse, List.filter_head?]
  cases entries.reverse.find? (fun e => decide (e.start ≤ idx ∧ idx < e.start + e.duration)) <;> rfl

/-- Witness for C5 at the overlapping-entry example. -/
theorem active_cel_start_last_match_witness :
    active_cel_start [⟨0, 5⟩, ⟨3, 5⟩] 4 =
      ((([⟨0, 5⟩, ⟨3, 5⟩] : List LayerEntry).filter
          (fun e => decide (e.start ≤ 4 ∧ 4 < e.start + e.duration))).getLast?).map
        LayerEntry.start :=
  active_cel_start_last_match.1 [⟨0, 5⟩, ⟨3, 5⟩] 4 (by decide)

/-! ## Frame count: C4 -/

theorem foldl_max_comm (l : List Int) (a x : Int) :
    l.foldl max (max a x) = max a (l.foldl max x) := by
  induction l generalizing x with
  | nil => rfl
  | cons c t ih => rw [List.foldl_cons, List.foldl_cons, max_assoc, ih]

theorem le_foldl_max (l : List Int) (a : Int) : a ≤ l.foldl max a := by
  induction l generalizing a with
  | nil => exact le_refl a
  | cons c t ih => exact le_trans (le_max_left a c) (ih (max a c))

theorem timeline_frame_count_flatten (layers : List Layer) :
    timeline_frame_count layers =
      ((layers.flatMap Layer.entries).foldl
        (fun m e => max m ((e.start : Int) + (e.duration : Int) - 1)) (-1)) + 1 := by
  unfold timeline_frame_count
  congr 1
  suffices h : ∀ (ls : List Layer) (a : Int),
      ls.foldl
        (fun m layer =>
          layer.entries.foldl (fun m2 e => max m2 ((e.start : Int) + (e.duration : Int) - 1)) m)
        a =
      (ls.flatMap Layer.entries).foldl
        (fun m e => max m ((e.start : Int) + (e.duration : Int) - 1)) a from
    h layers (-1)
  intro ls
  induction ls with
  | nil => intro a; rfl
  | cons l t ih =>
      intro a
      rw [List.foldl_cons, List.flatMap_cons, List.foldl_append, ih]

/-- C4: for every set of layers with at least one schedule entry,
`timeline_frame_count` returns 1 + the maximum of start+duration-1 over
all entries across all layers; and when no layers exist or there are no
entries at all (computed frame count zero), the publish cycle fails with
a configuration error instead of publishing. -/
theorem timeline_frame_count_max_spec :
    (∀ (layers : List Layer) (m : Int),
      ((layers.flatMap Layer.entries).map
        (fun e => (e.start : Int) + (e.duration : Int) - 1)).max? = some m →
      timeline_frame_count layers = 1 + m) ∧
    (∀ (inp : PublishInput) (dir0 : OutDir),
      inp.layers = [] ∨ inp.layers.flatMap Layer.entries = [] →
      publish_animation inp dir0 = .error "no drawable layers found" ∨
      publish_animation inp dir0 = .error "timeline frame count is zero") := by
  constructor
  · intro layers m hm
    rw [timeline_frame_count_flatten]
    have hfold : (layers.flatMap Layer.entries).foldl
        (fun m2 e => max m2 ((e.start : Int) + (e.duration : Int) - 1)) (-1) =
        ((layers.flatMap Layer.entries).map
          (fun e => (e.start : Int) + (e.duration : Int) - 1)).foldl max (-1) := by
      rw [List.foldl_map]
    rw [hfold]
    rcases hl : (layers.flatMap Layer.entries).map
        (fun e => (e.start : Int) + (e.duration : Int) - 1) with _ | ⟨x, t⟩
    · rw [hl] at hm
      exact absurd hm (by simp [List.max?])
    · rw [hl] at hm
      have hmx : m = t.foldl max x := by
        have : (x :: t).max? = some (t.foldl max x) := rfl
        rw [this] at hm
        exact (Option.some.injEq _ _ ▸ hm).symm
      have hx : (-1 : Int) ≤ x := by
        have hxm : x ∈ (layers.flatMap Layer.entries).map
            (fun e => (e.start : Int) + (e.duration : Int) - 1) := by
          rw [hl]; exact List.mem_cons_self x t
        obtain ⟨e, _, he⟩ := List.mem_map.mp hxm
        have h1 : (0 : Int) ≤ (e.start : Int) := Int.ofNat_nonneg _
        have h2 : (0 : Int) ≤ (e.duration : Int) := Int.ofNat_nonneg _
        omega
      rw [hl, List.foldl_cons, foldl_max_comm]
      have hm2 : x ≤ t.foldl max x := le_foldl_max t x
      rw [← hmx]
      have hmr : max (-1) m = m := max_eq_right (by omega)
      rw [hmr, Int.add_comm]
  · intro inp dir0 h
    by_cases hl : inp.layers.isEmpty
    · left
      unfold publish_animation
      rw [if_pos hl]
    · rcases h with h | h
      · exact absurd (by simp [h] : inp.layers.isEmpty = true) hl
      · right
        have ht : timeline_frame_count inp.layers = 0 := by
          rw [timeline_frame_count_flatten, h]
          rfl
        unfold publish_animation
        rw [if_neg hl, if_pos (by rw [ht])]

/-- Witness for C4: the two-entry sample layer has maximum end index 1, and
the layerless input fails with a configuration error. -/
theorem timeline_frame_count_max_spec_witness :
    timeline_frame_count sampleInput.layers = 1 + 1 ∧
    (publish_animation emptyInput sampleDir0 = .error "no drawable layers found" ∨
     publish_animation emptyInput sampleDir0 = .error "timeline frame count is zero") :=
  ⟨timeline_frame_count_max_spec.1 sampleInput.layers 1 (by decide),
   timeline_frame_count_max_spec.2 emptyInput sampleDir0 (Or.inl (by decide))⟩

/-! ## Crop-window geometry: C6 -/

theorem pyInt_eq_floor (q : ℚ) (h : 0 ≤ q) : pyInt q = ⌊q⌋ := by
  unfold pyInt
  rw [if_pos h]

/-- C6 counterexample: the code maps the upper corners with
int(v + 0.9999), not ceil(v); at source bbox (0,0,1,1), panel width
100001, background height 1, canvas 100000x100000 the scale is 1.00001,
and the code's crop rectangle (width 1) differs from the ceil-based one
the claim states (width 2). -/
theorem cropWindow_ne_spec_at_100001 :
    cropWindow (0, 0, 1, 1) 100001 1 100000 100000 = (0, 0, 1, 1) ∧
    cropWindowSpec (0, 0, 1, 1) 100001 1 100000 100000 = (0, 0, 2, 1) ∧
    cropWindow (0, 0, 1, 1) 100001 1 100000 100000 ≠
      cropWindowSpec (0, 0, 1, 1) 100001 1 100000 100000 := by
  refine ⟨?_, ?_, ?_⟩ <;> with_unfolding_all decide

/-- C6 amended: for a non-negative source rectangle, the crop window is
computed with scale = max(LW/CW, BH/CH) as x0 = max(0, floor(sx*scale)),
y0 = max(0, floor(sy*scale)), x1 = min(LW, floor((sx+sw)*scale + 0.9999)),
y1 = min(BH, floor((sy+sh)*scale + 0.9999)) — the 0.9999 offset
approximating ceil — and a zero-or-negative-extent rectangle falls back
to the full panel (0, 0, LW, BH). -/
theorem cropWindow_eq_floor (src : Int × Int × Int × Int)
    (left_width bg_h canvas_w canvas_h : Nat)
    (h1 : 0 ≤ src.1) (h2 : 0 ≤ src.2.1)
    (h3 : 0 ≤ src.1 + src.2.2.1) (h4 : 0 ≤ src.2.1 + src.2.2.2) :
    cropWindow src left_width bg_h canvas_w canvas_h =
      cropWindowFloor src left_width bg_h canvas_w canvas_h := by
  have hs : 0 ≤ max ((left_width : ℚ) / (canvas_w : ℚ)) ((bg_h : ℚ) / (canvas_h : ℚ)) :=
    le_max_of_le_left (div_nonneg (by positivity) (by positivity))
  have q1 : (0 : ℚ) ≤ (src.1 : ℚ) := by exact_mod_cast h1
  have q2 : (0 : ℚ) ≤ (src.2.1 : ℚ) := by exact_mod_cast h2
  have q3 : (0 : ℚ) ≤ ((src.1 + src.2.2.1 : Int) : ℚ) := by exact_mod_cast h3
  have q4 : (0 : ℚ) ≤ ((src.2.1 + src.2.2.2 : Int) : ℚ) := by exact_mod_cast h4
  have hq : (0 : ℚ) ≤ (9999 : ℚ) / 10000 := by norm_num
  simp only [cropWindow, cropWindowFloor]
  rw [pyInt_eq_floor _ (mul_nonneg q1 hs), pyInt_eq_floor _ (mul_nonneg q2 hs),
      pyInt_eq_floor _ (add_nonneg (mul_nonneg q3 hs) hq),
      pyInt_eq_floor _ (add_nonneg (mul_nonneg q4 hs) hq)]

/-- Witness for the amended C6 at a concrete non-negative input. -/
theorem cropWindow_eq_floor_witness :
    cropWindow (0, 0, 1, 1) 1 2 2 2 = cropWindowFloor (0, 0, 1, 1) 1 2 2 2 :=
  cropWindow_eq_floor (0, 0, 1, 1) 1 2 2 2 (by decide) (by decide) (by decide) (by decide)

/-! ## Alpha-bbox detector: C9 -/

theorem foldl_flatMap {α β γ : Type} (g : α → List β) (f : γ → β → γ) (l : List α) (init : γ) :
    (l.flatMap g).foldl f init = l.foldl (fun a y => (g y).foldl f a) init := by
  induction l generalizing init with
  | nil => rfl
  | cons x t ih => rw [List.flatMap_cons, List.foldl_append, List.foldl_cons, ih]

theorem detect_grid_fold (width height t : Nat) (data : Nat → Nat)
    (init : Int × Int × Int × Int) :
    (List.range height).foldl
      (fun acc y =>
        (List.range width).foldl
          (fun acc2 x => scanPixel t (alphaAt data width x y) x y acc2) acc)
      init
    = (gridPixels width height).foldl (pixStep data width t) init := by
  unfold gridPixels
  rw [foldl_flatMap]
  simp only [List.foldl_map]
  rfl

theorem detect_alpha_bbox_eq (width height t : Nat) (data : Nat → Nat) :
    detect_alpha_bbox width height data t =
      (if ((gridPixels width height).foldl (pixStep data width t)
            ((width : Int), (height : Int), -1, -1)).2.2.1 <
          ((gridPixels width height).foldl (pixStep data width t)
            ((width : Int), (height : Int), -1, -1)).1 ∨
          ((gridPixels width height).foldl (pixStep data width t)
            ((width : Int), (height : Int), -1, -1)).2.2.2 <
          ((gridPixels width height).foldl (pixStep data width t)
            ((width : Int), (height : Int), -1, -1)).2.1 then none
       else some
        (((gridPixels width height).foldl (pixStep data width t)
            ((width : Int), (height : Int), -1, -1)).1,
         ((gridPixels width height).foldl (pixStep data width t)
            ((width : Int), (height : Int), -1, -1)).2.1,
         ((gridPixels width height).foldl (pixStep data width t)
            ((width : Int), (height : Int), -1, -1)).2.2.1 -
           ((gridPixels width height).foldl (pixStep data width t)
            ((width : Int), (height : Int), -1, -1)).1 + 1,
         ((gridPixels width height).foldl (pixStep data width t)
            ((width : Int), (height : Int), -1, -1)).2.2.2 -
           ((gridPixels width height).foldl (pixStep data width t)
            ((width : Int), (height : Int), -1, -1)).2.1 + 1)) := by
  unfold detect_alpha_bbox
  dsimp only
  rw [detect_grid_fold]

theorem pixStep_components (data : Nat → Nat) (width t : Nat)
    (acc : Int × Int × Int × Int) (p : Nat × Nat) :
    pixStep data width t acc p =
      (if alphaAt data width p.1 p.2 > t then min acc.1 (p.1 : Int) else acc.1,
       if alphaAt data width p.1 p.2 > t then min acc.2.1 (p.2 : Int) else acc.2.1,
       if alphaAt data width p.1 p.2 > t then max acc.2.2.1 (p.1 : Int) else acc.2.2.1,
       if alphaAt data width p.1 p.2 > t then max acc.2.2.2 (p.2 : Int) else acc.2.2.2) := by
  unfold pixStep scanPixel
  by_cases h : alphaAt data width p.1 p.2 > t
  · rw [if_pos h]
    simp only [if_pos h]
    refine Prod.ext ?_ (Prod.ext ?_ (Prod.ext ?_ ?_)) <;> simp only
    · rw [min_comm, min_def]
      split <;> split <;> omega
    · rw [min_comm, min_def]
      split <;> split <;> omega
    · rw [max_comm, max_def]
      split <;> split <;> omega
    · rw [max_comm, max_def]
      split <;> split <;> omega
  · rw [if_neg h]
    simp only [if_neg h]

theorem foldPix_comp1 (data : Nat → Nat) (width t : Nat) (L : List (Nat × Nat))
    (acc : Int × Int × Int × Int) :
    (L.foldl (pixStep data width t) acc).1 =
      L.foldl
        (fun m p => if alphaAt data width p.1 p.2 > t then min m (p.1 : Int) else m) acc.1 := by
  induction L generalizing acc with
  | nil => rfl
  | cons p L ih =>
      rw [List.foldl_cons, List.foldl_cons, ih, pixStep_components]

theorem foldPix_comp2 (data : Nat → Nat) (width t : Nat) (L : List (Nat × Nat))
    (acc : Int × Int × Int × Int) :
    (L.foldl (pixStep data width t) acc).2.1 =
      L.foldl
        (fun m p => if alphaAt data width p.1 p.2 > t then min m (p.2 : Int) else m) acc.2.1 := by
  induction L generalizing acc with
  | nil => rfl
  | cons p L ih =>
      rw [List.foldl_cons, List.foldl_cons, ih, pixStep_components]

theorem foldPix_comp3 (data : Nat → Nat) (width t : Nat) (L : List (Nat × Nat))
    (acc : Int × Int × Int × Int) :
    (L.foldl (pixStep data width t) acc).2.2.1 =
      L.foldl
        (fun m p => if alphaAt data width p.1 p.2 > t then max m (p.1 : Int) else m) acc.2.2.1 := by
  induction L generalizing acc with
  | nil => rfl
  | cons p L ih =>
      rw [List.foldl_cons, List.foldl_cons, ih, pixStep_components]

theorem foldPix_comp4 (data : Nat → Nat) (width t : Nat) (L : List (Nat × Nat))
    (acc : Int × Int × Int × Int) :
    (L.foldl (pixStep data width t) acc).2.2.2 =
      L.foldl
        (fun m p => if alphaAt data width p.1 p.2 > t then max m (p.2 : Int) else m) acc.2.2.2 := by
  induction L generalizing acc with
  | nil => rfl
  | cons p L ih =>
      rw [List.foldl_cons, List.foldl_cons, ih, pixStep_components]

theorem foldl_cond_id {β : Type} (P : Nat × Nat → Prop) [DecidablePred P]
    (g : β → Nat × Nat → β) (L : List (Nat × Nat)) (m : β)
    (h : ∀ p ∈ L, ¬ P p) :
    L.foldl (fun m p => if P p then g m p else m) m = m := by
  induction L generalizing m with
  | nil => rfl
  | cons p L ih =>
      rw [List.foldl_cons, if_neg (h p (by simp))]
      exact ih m (fun q hq => h q (List.mem_cons_of_mem p hq))

theorem foldl_cond_min_le_init (P : Nat × Nat → Prop) [DecidablePred P]
    (f : Nat × Nat → Int) (L : List (Nat × Nat)) (m : Int) :
    L.foldl (fun m p => if P p then min m (f p) else m) m ≤ m := by
  induction L generalizing m with
  | nil => exact le_refl m
  | cons p L ih =>
      rw [List.foldl_cons]
      by_cases h : P p
      · rw [if_pos h]
        exact le_trans (ih (min m (f p))) (min_le_left m (f p))
      · rw [if_neg h]
        exact ih m

theorem foldl_cond_min_le_mem (P : Nat × Nat → Prop) [DecidablePred P]
    (f : Nat × Nat → Int) (L : List (Nat × Nat)) (m : Int) (p0 : Nat × Nat)
    (hp : p0 ∈ L) (hP : P p0) :
    L.foldl (fun m p => if P p then min m (f p) else m) m ≤ f p0 := by
  induction L generalizing m with
  | nil => exact absurd hp (by simp)
  | cons p L ih =>
      rw [List.foldl_cons]
      rcases List.mem_cons.mp hp with rfl | hmem
      · rw [if_pos hP]
        exact le_trans (foldl_cond_min_le_init P f L (min m (f p0))) (min_le_right m (f p0))
      · by_cases h : P p
        · rw [if_pos h]
          exact ih (min m (f p)) hmem
        · rw [if_neg h]
          exact ih m hmem

theorem foldl_cond_min_cases (P : Nat × Nat → Prop) [DecidablePred P]
    (f : Nat × Nat → Int) (L : List (Nat × Nat)) (m : Int) :
    L.foldl (fun m p => if P p then min m (f p) else m) m = m ∨
      ∃ p, p ∈ L ∧ P p ∧ L.foldl (fun m p => if P p then min m (f p) else m) m = f p := by
  induction L generalizing m with
  | nil => exact Or.inl rfl
  | cons p L ih =>
      rw [List.foldl_cons]
      by_cases h : P p
      · rw [if_pos h]
        rcases ih (min m (f p)) with heq | ⟨q, hq, hQ, heq⟩
        · rcases min_choice m (f p) with hc | hc
          · exact Or.inl (by rw [heq, hc])
          · exact Or.inr ⟨p, by simp, h, heq.trans hc⟩
        · exact Or.inr ⟨q, List.mem_cons_of_mem p hq, hQ, heq⟩
      · rw [if_neg h]
        rcases ih m with heq | ⟨q, hq, hQ, heq⟩
        · exact Or.inl heq
        · exact Or.inr ⟨q, List.mem_cons_of_mem p hq, hQ, heq⟩

theorem foldl_cond_max_ge_init (P : Nat × Nat → Prop) [DecidablePred P]
    (f : Nat × Nat → Int) (L : List (Nat × Nat)) (m : Int) :
    m ≤ L.foldl (fun m p => if P p then max m (f p) else m) m := by
  induction L generalizing m with
  | nil => exact le_refl m
  | cons p L ih =>
      rw [List.foldl_cons]
      by_cases h : P p
      · rw [if_pos h]
        exact le_trans (le_max_left m (f p)) (ih (max m (f p)))
      · rw [if_neg h]
        exact ih m

theorem foldl_cond_max_ge_mem (P : Nat × Nat → Prop) [DecidablePred P]
    (f : Nat × Nat → Int) (L : List (Nat × Nat)) (m : Int) (p0 : Nat × Nat)
    (hp : p0 ∈ L) (hP : P p0) :
    f p0 ≤ L.foldl (fun m p => if P p then max m (f p) else m) m := by
  induction L generalizing m with
  | nil => exact absurd hp (by simp)
  | cons p L ih =>
      rw [List.foldl_cons]
      rcases List.mem_cons.mp hp with rfl | hmem
      · rw [if_pos hP]
        exact le_trans (le_max_right m (f p0)) (foldl_cond_max_ge_init P f L (max m (f p0)))
      · by_cases h : P p
        · rw [if_pos h]
          exact ih (max m (f p)) hmem
        · rw [if_neg h]
          exact ih m hmem

theorem foldl_cond_max_cases (P : Nat × Nat → Prop) [DecidablePred P]
    (f : Nat × Nat → Int) (L : List (Nat × Nat)) (m : Int) :
    L.foldl (fun m p => if P p then max m (f p) else m) m = m ∨
      ∃ p, p ∈ L ∧ P p ∧ L.foldl (fun m p => if P p then max m (f p) else m) m = f p := by
  induction L generalizing m with
  | nil => exact Or.inl rfl
  | cons p L ih =>
      rw [List.foldl_cons]
      by_cases h : P p
      · rw [if_pos h]
        rcases ih (max m (f p)) with heq | ⟨q, hq, hQ, heq⟩
        · rcases max_choice m (f p) with hc | hc
          · exact Or.inl (by rw [heq, hc])
          · exact Or.inr ⟨p, by simp, h, heq.trans hc⟩
        · exact Or.inr ⟨q, List.mem_cons_of_mem p hq, hQ, heq⟩
      · rw [if_neg h]
        rcases ih m with heq | ⟨q, hq, hQ, heq⟩
        · exact Or.inl heq
        · exact Or.inr ⟨q, List.mem_cons_of_mem p hq, hQ, heq⟩

theorem mem_gridPixels (width height : Nat) (p : Nat × Nat) :
    p ∈ gridPixels width height ↔ p.1 < width ∧ p.2 < height := by
  unfold gridPixels
  rw [List.mem_flatMap]
  constructor
  · rintro ⟨y, hy, hp⟩
    obtain ⟨x, hx, rfl⟩ := List.mem_map.mp hp
    exact ⟨by simpa using List.mem_range.mp hx, by simpa using List.mem_range.mp hy⟩
  · rintro ⟨h1, h2⟩
    exact ⟨p.2, List.mem_range.mpr h2,
      List.mem_map.mpr ⟨p.1, List.mem_range.mpr h1, by simp⟩⟩

theorem mem_opaquePixels (width height : Nat) (data : Nat → Nat) (t : Nat) (p : Nat × Nat) :
    p ∈ opaquePixels width height data t ↔
      (p.1 < width ∧ p.2 < height) ∧ alphaAt data width p.1 p.2 > t := by
  unfold opaquePixels
  rw [List.mem_filter, mem_gridPixels]
  simp

theorem detect_some_of_mem (width height : Nat) (data : Nat → Nat) (t : Nat)
    (p0 : Nat × Nat) (hp0 : p0 ∈ opaquePixels width height data t) :
    detect_alpha_bbox width height data t =
      some
        (((gridPixels width height).foldl (pixStep data width t)
            ((width : Int), (height : Int), -1, -1)).1,
         ((gridPixels width height).foldl (pixStep data width t)
            ((width : Int), (height : Int), -1, -1)).2.1,
         ((gridPixels width height).foldl (pixStep data width t)
            ((width : Int), (height : Int), -1, -1)).2.2.1 -
           ((gridPixels width height).foldl (pixStep data width t)
            ((width : Int), (height : Int), -1, -1)).1 + 1,
         ((gridPixels width height).foldl (pixStep data width t)
            ((width : Int), (height : Int), -1, -1)).2.2.2 -
           ((gridPixels width height).foldl (pixStep data width t)
            ((width : Int), (height : Int), -1, -1)).2.1 + 1) := by
  have hop := (mem_opaquePixels width height data t p0).mp hp0
  have hg : p0 ∈ gridPixels width height := (mem_gridPixels width height p0).mpr hop.1
  have hP : alphaAt data width p0.1 p0.2 > t := hop.2
  rw [detect_alpha_bbox_eq]
  rw [if_neg ?hcond]
  case hcond =>
    rw [foldPix_comp1, foldPix_comp2, foldPix_comp3, foldPix_comp4]
    push_neg
    constructor
    · exact le_trans
        (foldl_cond_min_le_mem (fun p => alphaAt data width p.1 p.2 > t)
          (fun p => (p.1 : Int)) (gridPixels width height) _ p0 hg hP)
        (foldl_cond_max_ge_mem (fun p => alphaAt data width p.1 p.2 > t)
          (fun p => (p.1 : Int)) (gridPixels width height) _ p0 hg hP)
    · exact le_trans
        (foldl_cond_min_le_mem (fun p => alphaAt data width p.1 p.2 > t)
          (fun p => (p.2 : Int)) (gridPixels width height) _ p0 hg hP)
        (foldl_cond_max_ge_mem (fun p => alphaAt data width p.1 p.2 > t)
          (fun p => (p.2 : Int)) (gridPixels width height) _ p0 hg hP)

theorem detect_none_of_empty (width height : Nat) (data : Nat → Nat) (t : Nat)
    (h : opaquePixels width height data t = []) :
    detect_alpha_bbox width height data t = none := by
  have hno : ∀ p ∈ gridPixels width height, ¬ alphaAt data width p.1 p.2 > t := by
    intro p hp hP
    have : p ∈ opaquePixels width height data t :=
      (mem_opaquePixels width height data t p).mpr ⟨(mem_gridPixels width height p).mp hp, hP⟩
    rw [h] at this
    exact absurd this (by simp)
  rw [detect_alpha_bbox_eq]
  rw [if_pos ?hcond]
  case hcond =>
    rw [foldPix_comp3, foldPix_comp1]
    rw [foldl_cond_id (fun p => alphaAt data width p.1 p.2 > t) _ _ _ hno,
        foldl_cond_id (fun p => alphaAt data width p.1 p.2 > t) _ _ _ hno]
    left
    dsimp only
    have : (0 : Int) ≤ (width : Int) := Int.ofNat_nonneg width
    omega

/-- C9: the pixel scan of the alpha-bbox detector returns none exactly
when no pixel's alpha strictly exceeds the threshold; otherwise it
returns the smallest axis-aligned rectangle (x, y, w, h) containing
every such pixel (it contains all of them and each of its four edges is
attained by one); and when no cel in the timeline yields a non-empty
bbox, the global source bbox falls back to the full canvas rectangle. -/
theorem detect_alpha_bbox_spec :
    (∀ (width height : Nat) (data : Nat → Nat) (t : Nat),
      detect_alpha_bbox width height data t = none ↔
        opaquePixels width height data t = []) ∧
    (∀ (width height : Nat) (data : Nat → Nat) (t : Nat) (bx by0 bw bh : Int),
      detect_alpha_bbox width height data t = some (bx, by0, bw, bh) →
      (∀ p ∈ opaquePixels width height data t,
        bx ≤ (p.1 : Int) ∧ (p.1 : Int) < bx + bw ∧
        by0 ≤ (p.2 : Int) ∧ (p.2 : Int) < by0 + bh) ∧
      (∃ p ∈ opaquePixels width height data t, (p.1 : Int) = bx) ∧
      (∃ p ∈ opaquePixels width height data t, (p.1 : Int) = bx + bw - 1) ∧
      (∃ p ∈ opaquePixels width height data t, (p.2 : Int) = by0) ∧
      (∃ p ∈ opaquePixels width height data t, (p.2 : Int) = by0 + bh - 1)) ∧
    (∀ (inp : PublishInput) (prevC : List (String × Option (List Int))),
      sourceBBoxUnion inp prevC = none →
      source_bbox inp prevC = (0, 0, (inp.canvas_w : Int), (inp.canvas_h : Int))) := by
  refine ⟨?_, ?_, ?_⟩
  · intro width height data t
    constructor
    · intro hdet
      rcases hop : opaquePixels width height data t with _ | ⟨p0, rest⟩
      · rfl
      · have hp0 : p0 ∈ opaquePixels width height data t := by
          rw [hop]
          exact List.mem_cons_self p0 rest
        rw [detect_some_of_mem width height data t p0 hp0] at hdet
        exact absurd hdet (by simp)
    · exact detect_none_of_empty width height data t
  · intro width height data t bx by0 bw bh hdet
    rcases hop : opaquePixels width height data t with _ | ⟨p0, rest⟩
    · rw [detect_none_of_empty width height data t hop] at hdet
      exact absurd hdet (by simp)
    have hp0 : p0 ∈ opaquePixels width height data t := by
      rw [hop]
      exact List.mem_cons_self p0 rest
    rw [← hop]
    have hsome := detect_some_of_mem width height data t p0 hp0
    rw [hdet] at hsome
    have hinj := Option.some.injEq _ _ ▸ hsome
    obtain ⟨hbx, hby, hbw, hbh⟩ :
        bx = ((gridPixels width height).foldl (pixStep data width t)
            ((width : Int), (height : Int), -1, -1)).1 ∧
        by0 = ((gridPixels width height).foldl (pixStep data width t)
            ((width : Int), (height : Int), -1, -1)).2.1 ∧
        bw = ((gridPixels width height).foldl (pixStep data width t)
            ((width : Int), (height : Int), -1, -1)).2.2.1 -
          ((gridPixels width height).foldl (pixStep data width t)
            ((width : Int), (height : Int), -1, -1)).1 + 1 ∧
        bh = ((gridPixels width height).foldl (pixStep data width t)
            ((width : Int), (height : Int), -1, -1)).2.2.2 -
          ((gridPixels width height).foldl (pixStep data width t)
            ((width : Int), (height : Int), -1, -1)).2.1 + 1 := by
      have h1 := congrArg (fun r : Int × Int × Int × Int => r.1) hinj
      have h2 := congrArg (fun r : Int × Int × Int × Int => r.2.1) hinj
      have h3 := congrArg (fun r : Int × Int × Int × Int => r.2.2.1) hinj
      have h4 := congrArg (fun r : Int × Int × Int × Int => r.2.2.2) hinj
      exact ⟨h1, h2, h3, h4⟩
    have hM1 := foldPix_comp1 data width t (gridPixels width height)
      ((width : Int), (height : Int), -1, -1)
    have hM2 := foldPix_comp2 data width t (gridPixels width height)
      ((width : Int), (height : Int), -1, -1)
    have hM3 := foldPix_comp3 data width t (gridPixels width height)
      ((width : Int), (height : Int), -1, -1)
    have hM4 := foldPix_comp4 data width t (gridPixels width height)
      ((width : Int), (height : Int), -1, -1)
    dsimp only at hM1 hM2 hM3 hM4
    have hgrid : ∀ p, p ∈ opaquePixels width height data t →
        p ∈ gridPixels width height ∧ alphaAt data width p.1 p.2 > t := by
      intro p hp
      have hop2 := (mem_opaquePixels width height data t p).mp hp
      exact ⟨(mem_gridPixels width height p).mpr hop2.1, hop2.2⟩
    have hg0 := hgrid p0 hp0
    refine ⟨?_, ?_, ?_, ?_, ?_⟩
    · intro p hp
      have hg := hgrid p hp
      have hminx := foldl_cond_min_le_mem (fun p => alphaAt data width p.1 p.2 > t)
        (fun p => (p.1 : Int)) (gridPixels width height) ((width : Int)) p hg.1 hg.2
      have hmaxx := foldl_cond_max_ge_mem (fun p => alphaAt data width p.1 p.2 > t)
        (fun p => (p.1 : Int)) (gridPixels width height) (-1) p hg.1 hg.2
      have hminy := foldl_cond_min_le_mem (fun p => alphaAt data width p.1 p.2 > t)
        (fun p => (p.2 : Int)) (gridPixels width height) ((height : Int)) p hg.1 hg.2
      have hmaxy := foldl_cond_max_ge_mem (fun p => alphaAt data width p.1 p.2 > t)
        (fun p => (p.2 : Int)) (gridPixels width height) (-1) p hg.1 hg.2
      dsimp only at hminx hmaxx hminy hmaxy
      rw [← hM1] at hminx
      rw [← hM3] at hmaxx
      rw [← hM2] at hminy
      rw [← hM4] at hmaxy
      refine ⟨by omega, by omega, by omega, by omega⟩
    · rcases foldl_cond_min_cases (fun p => alphaAt data width p.1 p.2 > t)
        (fun p => (p.1 : Int)) (gridPixels width height) ((width : Int)) with hc | ⟨q, hq, hQ, hc⟩
      · exfalso
        have hle := foldl_cond_min_le_mem (fun p => alphaAt data width p.1 p.2 > t)
          (fun p => (p.1 : Int)) (gridPixels width height) ((width : Int)) p0 hg0.1 hg0.2
        have hlt : p0.1 < width := ((mem_gridPixels width height p0).mp hg0.1).1
        rw [hc] at hle
        dsimp only at hle
        have : (p0.1 : Int) < (width : Int) := by exact_mod_cast hlt
        omega
      · refine ⟨q, (mem_opaquePixels width height data t q).mpr
          ⟨(mem_gridPixels width height q).mp hq, hQ⟩, ?_⟩
        rw [hbx, hM1, hc]
    · rcases foldl_cond_max_cases (fun p => alphaAt data width p.1 p.2 > t)
        (fun p => (p.1 : Int)) (gridPixels width height) (-1) with hc | ⟨q, hq, hQ, hc⟩
      · exfalso
        have hge := foldl_cond_max_ge_mem (fun p => alphaAt data width p.1 p.2 > t)
          (fun p => (p.1 : Int)) (gridPixels width height) (-1) p0 hg0.1 hg0.2
        rw [hc] at hge
        dsimp only at hge
        have : (0 : Int) ≤ (p0.1 : Int) := Int.ofNat_nonneg _
        omega
      · refine ⟨q, (mem_opaquePixels width height data t q).mpr
          ⟨(mem_gridPixels width height q).mp hq, hQ⟩, ?_⟩
        rw [hbx, hbw, hM1, hM3, hc]
        omega
    · rcases foldl_cond_min_cases (fun p => alphaAt data width p.1 p.2 > t)
        (fun p => (p.2 : Int)) (gridPixels width height) ((height : Int)) with hc | ⟨q, hq, hQ, hc⟩
      · exfalso
        have hle := foldl_cond_min_le_mem (fun p => alphaAt data width p.1 p.2 > t)
          (fun p => (p.2 : Int)) (gridPixels width height) ((height : Int)) p0 hg0.1 hg0.2
        have hlt : p0.2 < height := ((mem_gridPixels width height p0).mp hg0.1).2
        rw [hc] at hle
        dsimp only at hle
        have : (p0.2 : Int) < (height : Int) := by exact_mod_cast hlt
        omega
      · refine ⟨q, (mem_opaquePixels width height data t q).mpr
          ⟨(mem_gridPixels width height q).mp hq, hQ⟩, ?_⟩
        rw [hby, hM2, hc]
    · rcases foldl_cond_max_cases (fun p => alphaAt data width p.1 p.2 > t)
        (fun p => (p.2 : Int)) (gridPixels width height) (-1) with hc | ⟨q, hq, hQ, hc⟩
      · exfalso
        have hge := foldl_cond_max_ge_mem (fun p => alphaAt data width p.1 p.2 > t)
          (fun p => (p.2 : Int)) (gridPixels width height) (-1) p0 hg0.1 hg0.2
        rw [hc] at hge
        dsimp only at hge
        have : (0 : Int) ≤ (p0.2 : Int) := Int.ofNat_nonneg _
        omega
      · refine ⟨q, (mem_opaquePixels width height data t q).mpr
          ⟨(mem_gridPixels width height q).mp hq, hQ⟩, ?_⟩
        rw [hby, hbh, hM2, hM4, hc]
        omega
  · intro inp prevC h
    unfold source_bbox
    rw [h]

/-- Witness for C9: a 2x2 buffer whose only opaque pixel is (0, 0). -/
theorem detect_alpha_bbox_spec_witness :
    (∀ p ∈ opaquePixels 2 2 (fun i => if i = 3 then 255 else 0) 8,
      (0 : Int) ≤ (p.1 : Int) ∧ (p.1 : Int) < 0 + 1 ∧
      (0 : Int) ≤ (p.2 : Int) ∧ (p.2 : Int) < 0 + 1) ∧
    (∃ p ∈ opaquePixels 2 2 (fun i => if i = 3 then 255 else 0) 8, (p.1 : Int) = 0) ∧
    (∃ p ∈ opaquePixels 2 2 (fun i => if i = 3 then 255 else 0) 8, (p.1 : Int) = 0 + 1 - 1) ∧
    (∃ p ∈ opaquePixels 2 2 (fun i => if i = 3 then 255 else 0) 8, (p.2 : Int) = 0) ∧
    (∃ p ∈ opaquePixels 2 2 (fun i => if i = 3 then 255 else 0) 8, (p.2 : Int) = 0 + 1 - 1) :=
  detect_alpha_bbox_spec.2.1 2 2 (fun i => if i = 3 then 255 else 0) 8 0 0 1 1 (by decide)

/-! ## Inverting a successful publish cycle -/

theorem publish_ok_inv (inp : PublishInput) (dir0 dir1 : OutDir) (res : PublishResult)
    (h : publish_animation inp dir0 = .ok (dir1, res)) :
    dir1 = { files := dictInsert "manifest.txt" (manifestContent inp dir0)
                (writeFrames inp (afterSweep inp dir0) (changedFramesRun inp dir0)),
             state := some (nextStateRun inp dir0) } ∧
    res = { frame_count := (activeFrameNames inp).length,
            fps := inp.fps,
            rebuilt_frames := (changedFramesRun inp dir0).length,
            changed_input_files :=
              changedInputFilesOf (currentInputs inp) ((prevStateOf dir0).input_files.getD []),
            changed_frames := changedFramesRun inp dir0 } := by
  unfold publish_animation at h
  split_ifs at h
  exact ⟨(congrArg Prod.fst (Except.ok.inj h)).symm,
         (congrArg Prod.snd (Except.ok.inj h)).symm⟩

/-! ## Fold-insert and unlink lemmas -/

theorem dictGet_foldl_insert_nmem {α β : Type} (key : β → String) (val : β → α)
    (items : List β) (d : List (String × α)) (k : String) (h : ∀ b ∈ items, key b ≠ k) :
    dictGet k (items.foldl (fun d b => dictInsert (key b) (val b) d) d) = dictGet k d := by
  induction items generalizing d with
  | nil => rfl
  | cons b t ih =>
      rw [List.foldl_cons, ih _ (fun x hx => h x (List.mem_cons_of_mem b hx)),
          dictGet_insert_ne (key b) k (val b) d (Ne.symm (h b (by simp)))]

theorem dictGet_insert_ne_none {α : Type} (k k' : String) (v : α) (l : List (String × α))
    (h : dictGet k l ≠ none ∨ k = k') : dictGet k (dictInsert k' v l) ≠ none := by
  by_cases hk : k = k'
  · rw [hk, dictGet_insert_self]
    simp
  · rcases h with h | h
    · rw [dictGet_insert_ne k' k v l hk]
      exact h
    · exact absurd h hk

theorem dictGet_foldl_insert_ne_none {α β : Type} (key : β → String) (val : β → α)
    (items : List β) (d : List (String × α)) (k : String)
    (h : (∃ b ∈ items, key b = k) ∨ dictGet k d ≠ none) :
    dictGet k (items.foldl (fun d b => dictInsert (key b) (val b) d) d) ≠ none := by
  induction items generalizing d with
  | nil =>
      rcases h with ⟨b, hb, _⟩ | h
      · exact absurd hb (by simp)
      · exact h
  | cons b t ih =>
      rw [List.foldl_cons]
      rcases h with ⟨b0, hb0, hk⟩ | h
      · rcases List.mem_cons.mp hb0 with rfl | hmem
        · exact ih _ (Or.inr (dictGet_insert_ne_none k (key b0) (val b0) d (Or.inr hk.symm)))
        · exact ih _ (Or.inl ⟨b0, hmem, hk⟩)
      · exact ih _ (Or.inr (dictGet_insert_ne_none k (key b) (val b) d (Or.inl h)))

theorem dictKeys_foldl_insert_mem {α β : Type} (key : β → String) (val : β → α)
    (items : List β) (d : List (String × α)) (k : String) :
    k ∈ dictKeys (items.foldl (fun d b => dictInsert (key b) (val b) d) d) ↔
      (∃ b ∈ items, key b = k) ∨ k ∈ dictKeys d := by
  induction items generalizing d with
  | nil => simp
  | cons b t ih =>
      rw [List.foldl_cons, ih, dictKeys_insert_mem]
      constructor
      · rintro (⟨b0, hb0, hk⟩ | (rfl | hd))
        · exact Or.inl ⟨b0, List.mem_cons_of_mem b hb0, hk⟩
        · exact Or.inl ⟨b, by simp, rfl⟩
        · exact Or.inr hd
      · rintro (⟨b0, hb0, hk⟩ | hd)
        · rcases List.mem_cons.mp hb0 with rfl | hmem
          · exact Or.inr (Or.inl hk.symm)
          · exact Or.inl ⟨b0, hmem, hk⟩
        · exact Or.inr (Or.inr hd)

theorem dictGet_unlink_ne (n name : String) (fs : List (String × String)) (h : name ≠ n) :
    dictGet name (unlinkFile n fs) = dictGet name fs := by
  unfold unlinkFile
  exact dictGet_filter_keep fs _ name (fun p _ hp => by simp [hp, h])

theorem dictGet_unlink_self (n : String) (fs : List (String × String)) :
    dictGet n (unlinkFile n fs) = none := by
  unfold unlinkFile
  exact dictGet_filter_none fs _ n (fun p _ hp => by simp [hp])

theorem dictGet_foldl_unlink_nmem (R : List String) (fs : List (String × String))
    (name : String) (h : name ∉ R) :
    dictGet name (R.foldl (fun fs n => unlinkFile n fs) fs) = dictGet name fs := by
  induction R generalizing fs with
  | nil => rfl
  | cons r t ih =>
      rw [List.foldl_cons, ih _ (fun hx => h (List.mem_cons_of_mem r hx)),
          dictGet_unlink_ne r name fs (fun he => h (he ▸ List.mem_cons_self r t))]

theorem dictGet_foldl_unlink_none (R : List String) (fs : List (String × String))
    (name : String) (h : dictGet name fs = none) :
    dictGet name (R.foldl (fun fs n => unlinkFile n fs) fs) = none := by
  induction R generalizing fs with
  | nil => exact h
  | cons r t ih =>
      rw [List.foldl_cons]
      exact ih _ (dictGet_none_of_filter fs _ name h)

theorem dictGet_foldl_unlink_mem (R : List String) (fs : List (String × String))
    (name : String) (h : name ∈ R) :
    dictGet name (R.foldl (fun fs n => unlinkFile n fs) fs) = none := by
  induction R generalizing fs with
  | nil => exact absurd h (by simp)
  | cons r t ih =>
      rw [List.foldl_cons]
      rcases List.mem_cons.mp h with rfl | hmem
      · exact dictGet_foldl_unlink_none t _ name (dictGet_unlink_self name fs)
      · exact ih _ hmem

/-! ## Current-frame dictionary facts -/

theorem dictGet_currentFrameSigs_ne_none (inp : PublishInput) (i : Nat)
    (h : i ∈ activeFrameIdxs inp) :
    dictGet (frameName i) (currentFrameSigs inp) ≠ none := by
  unfold currentFrameSigs
  exact dictGet_foldl_insert_ne_none frameName (fun i => frameSig inp i)
    (activeFrameIdxs inp) [] (frameName i) (Or.inl ⟨i, h, rfl⟩)

theorem dictGet_currentFrameSigs_none (inp : PublishInput) (name : String)
    (h : name ∉ activeFrameNames inp) :
    dictGet name (currentFrameSigs inp) = none := by
  rw [dictGet_eq_none_iff]
  intro hk
  unfold currentFrameSigs at hk
  rw [dictKeys_foldl_insert_mem frameName (fun i => frameSig inp i)
    (activeFrameIdxs inp) [] name] at hk
  rcases hk with ⟨i, hi, hk⟩ | hk
  · exact h (hk ▸ List.mem_map.mpr ⟨i, hi, rfl⟩)
  · exact absurd hk (by simp [dictKeys])

/-! ## Deletion and sweep preservation -/

theorem mem_removedFrames_absent (inp : PublishInput) (dir0 : OutDir) (name : String)
    (h : name ∈ removedFramesRun inp dir0) :
    dictGet name (currentFrameSigs inp) = none := by
  unfold removedFramesRun at h
  have := (List.mem_filter.mp h).2
  simpa using this

theorem afterSweep_dictGet_current (inp : PublishInput) (dir0 : OutDir) (name : String)
    (hcur : dictGet name (currentFrameSigs inp) ≠ none) :
    dictGet name (afterSweep inp dir0) = dictGet name (afterRemoved inp dir0) := by
  unfold afterSweep
  exact dictGet_filter_keep _ _ name (fun p _ hp => by simp [hp, hcur])

theorem afterSweep_dictGet_nonpattern (inp : PublishInput) (dir0 : OutDir) (name : String)
    (hpat : isFramePatternName name = false) :
    dictGet name (afterSweep inp dir0) = dictGet name (afterRemoved inp dir0) := by
  unfold afterSweep
  exact dictGet_filter_keep _ _ name (fun p _ hp => by simp [hp, hpat])

theorem afterSweep_dictGet_pattern_absent (inp : PublishInput) (dir0 : OutDir) (name : String)
    (hpat : isFramePatternName name = true)
    (habs : dictGet name (currentFrameSigs inp) = none) :
    dictGet name (afterSweep inp dir0) = none := by
  unfold afterSweep
  exact dictGet_filter_none _ _ name (fun p _ hp => by simp [hp, hpat, habs])

theorem afterSweep_active_eq (inp : PublishInput) (dir0 : OutDir) (i : Nat)
    (h : i ∈ activeFrameIdxs inp) :
    dictGet (frameName i) (afterSweep inp dir0) = dictGet (frameName i) dir0.files := by
  have hcur := dictGet_currentFrameSigs_ne_none inp i h
  rw [afterSweep_dictGet_current inp dir0 _ hcur]
  unfold afterRemoved
  apply dictGet_foldl_unlink_nmem
  intro hmem
  exact hcur (mem_removedFrames_absent inp dir0 _ hmem)

/-! ## Rebuild decision: C2 -/

/-- C2: in every publish cycle, force_full is true exactly when the
global signature differs from the previous state's, or the computed crop
rectangle differs from the previous state's, or no valid previous frame
map existed; and a frame is recomposited exactly when force_full holds,
or its current content signature differs from the previous run's
signature recorded for that frame name, or its output file is missing on
disk. -/
theorem publish_force_full_and_stale (inp : PublishInput) (dir0 dir1 : OutDir)
    (res : PublishResult) (h : publish_animation inp dir0 = .ok (dir1, res)) :
    (forceFullRun inp dir0 = true ↔
      ((prevStateOf dir0).global_sig ≠ globalSig inp ∨
       (prevStateOf dir0).crop ≠ cropRun inp dir0 ∨
       (prevStateOf dir0).frames = none)) ∧
    res.changed_frames = (changedIdxsRun inp dir0).map frameName ∧
    (∀ i ∈ activeFrameIdxs inp,
      (i ∈ changedIdxsRun inp dir0 ↔
        (forceFullRun inp dir0 = true ∨
         dictGet (frameName i) (prevFramesOf dir0) ≠
           dictGet (frameName i) (currentFrameSigs inp) ∨
         dictGet (frameName i) dir0.files = none))) := by
  refine ⟨?_, ?_, ?_⟩
  · unfold forceFullRun
    simp [Bool.or_eq_true, decide_eq_true_eq, or_assoc]
  · rw [(publish_ok_inv inp dir0 dir1 res h).2]
    rfl
  · intro i hi
    have hb := afterSweep_active_eq inp dir0 i hi
    unfold changedIdxsRun
    rw [List.mem_filter]
    simp only [hi, true_and, Bool.or_eq_true, decide_eq_true_eq, hb]
    tauto

/-- Witness for C2 on the sample project: the first cycle's changed-frame
list is exactly the stale-index list mapped through the frame-name
format. -/
theorem publish_force_full_and_stale_witness :
    sampleRes.changed_frames = (changedIdxsRun sampleInput sampleDir0).map frameName :=
  (publish_force_full_and_stale sampleInput sampleDir0 sampleDir1 sampleRes
    (by with_unfolding_all decide)).2.1

/-! ## Frame-name pattern facts -/

theorem isFramePatternName_frameName (i : Nat) : isFramePatternName (frameName i) = true := by
  unfold isFramePatternName frameName
  rw [Bool.and_eq_true]
  constructor
  · rw [List.isPrefixOf_iff_prefix]
    refine ⟨(pad4 i).toList ++ ".png".toList, ?_⟩
    show "frame-".toList ++ ((pad4 i).toList ++ ".png".toList) =
      (("frame-" ++ pad4 i) ++ ".png").toList
    show "frame-".toList ++ ((pad4 i).toList ++ ".png".toList) =
      ("frame-".toList ++ (pad4 i).toList) ++ ".png".toList
    rw [List.append_assoc]
  · rw [List.isSuffixOf_iff_suffix]
    exact ⟨("frame-" ++ pad4 i).toList, rfl⟩

/-! ## Interruption model: C1 -/

/-- C1 amended: mid-cycle work touches the published tree directly (the
deletions and each recomposited frame's final output), but the state
file slot is never modified before the cycle completes, and the only
published entries an interrupted cycle can change are frame-pattern
files and names recorded in the previous state's frame map. -/
theorem publishPrefix_state_untouched (inp : PublishInput) (dir0 : OutDir) (k : Nat) :
    (publishPrefix inp dir0 k).state = dir0.state ∧
    (∀ name, isFramePatternName name = false →
      dictGet name (prevFramesOf dir0) = none →
      dictGet name (publishPrefix inp dir0 k).files = dictGet name dir0.files) := by
  refine ⟨rfl, ?_⟩
  intro name hpat hprev
  show dictGet name
      (writeFrames inp (afterSweep inp dir0) ((changedFramesRun inp dir0).take k)) =
    dictGet name dir0.files
  have hw : dictGet name
      (writeFrames inp (afterSweep inp dir0) ((changedFramesRun inp dir0).take k)) =
      dictGet name (afterSweep inp dir0) := by
    unfold writeFrames
    apply dictGet_foldl_insert_nmem
    intro b hb hbk
    have hmem : b ∈ changedFramesRun inp dir0 := List.mem_of_mem_take hb
    unfold changedFramesRun at hmem
    obtain ⟨i, _, rfl⟩ := List.mem_map.mp hmem
    exact absurd (hbk ▸ isFramePatternName_frameName i) (by simp [hpat])
  rw [hw, afterSweep_dictGet_nonpattern inp dir0 name hpat]
  unfold afterRemoved
  apply dictGet_foldl_unlink_nmem
  intro hmem
  unfold removedFramesRun at hmem
  exact (dictGet_eq_none_iff name (prevFramesOf dir0)).mp hprev (List.mem_filter.mp hmem).1

/-- Witness for the amended C1: interrupting the sample cycle after one
frame leaves the state slot and a non-frame file untouched. -/
theorem publishPrefix_state_untouched_witness :
    (publishPrefix sampleInput cexDir0 1).state = cexDir0.state ∧
    dictGet "notes.txt" (publishPrefix sampleInput cexDir0 1).files =
      dictGet "notes.txt" cexDir0.files :=
  ⟨(publishPrefix_state_untouched sampleInput cexDir0 1).1,
   (publishPrefix_state_untouched sampleInput cexDir0 1).2 "notes.txt" (by decide) (by decide)⟩

/-- C1 counterexample: on a project whose two frames are both stale
(previous state unreadable, forcing a full rebuild), interrupting the
cycle after the first of the two recompositions — before the manifest
and state writes — has already replaced the previously published bytes
of frame-0000.png under the published output path, so the previously
published tree is not left untouched. -/
theorem publishPrefix_counterexample :
    (changedFramesRun sampleInput cexDir0).length = 2 ∧
    dictGet "frame-0000.png" cexDir0.files = some "OLD0" ∧
    dictGet "frame-0000.png" (publishPrefix sampleInput cexDir0 1).files =
      some "BYTES:frame-0000.png" := by
  refine ⟨?_, ?_, ?_⟩ <;> with_unfolding_all decide

/-! ## Deletion sweep: C7 -/

/-- C7: in every publish cycle, each frame name recorded in the previous
state's frame map but absent from the current active set has its output
file deleted, every leftover frame-pattern file not in the current
active set is deleted as well, and such names do not appear among the
manifest's frame-path lines. -/
theorem publish_removed_frames_swept (inp : PublishInput) (dir0 dir1 : OutDir)
    (res : PublishResult) (h : publish_animation inp dir0 = .ok (dir1, res)) :
    ∀ name, name ∉ activeFrameNames inp → name ≠ "manifest.txt" →
      (isFramePatternName name = true ∨ name ∈ dictKeys (prevFramesOf dir0)) →
      dictGet name dir1.files = none ∧
      (inp.outPathBase ++ name) ∉ manifestFrameLines inp := by
  intro name hact hman hcase
  have hd1 := (publish_ok_inv inp dir0 dir1 res h).1
  have habs : dictGet name (currentFrameSigs inp) = none :=
    dictGet_currentFrameSigs_none inp name hact
  constructor
  · rw [hd1]
    show dictGet name
        (dictInsert "manifest.txt" (manifestContent inp dir0)
          (writeFrames inp (afterSweep inp dir0) (changedFramesRun inp dir0))) = none
    rw [dictGet_insert_ne "manifest.txt" name _ _ hman]
    have hwr : dictGet name
        (writeFrames inp (afterSweep inp dir0) (changedFramesRun inp dir0)) =
        dictGet name (afterSweep inp dir0) := by
      unfold writeFrames
      apply dictGet_foldl_insert_nmem
      intro b hb hbk
      unfold changedFramesRun at hb
      obtain ⟨i, hi, rfl⟩ := List.mem_map.mp hb
      apply hact
      rw [← hbk]
      unfold changedIdxsRun at hi
      exact List.mem_map.mpr ⟨i, (List.mem_filter.mp hi).1, rfl⟩
    rw [hwr]
    rcases hcase with hpat | hprev
    · exact afterSweep_dictGet_pattern_absent inp dir0 name hpat habs
    · have hrem : name ∈ removedFramesRun inp dir0 := by
        unfold removedFramesRun
        exact List.mem_filter.mpr ⟨hprev, by simpa using habs⟩
      have h1 : dictGet name (afterRemoved inp dir0) = none := by
        unfold afterRemoved
        exact dictGet_foldl_unlink_mem _ _ _ hrem
      unfold afterSweep
      exact dictGet_none_of_filter _ _ _ h1
  · intro hmem
    unfold manifestFrameLines at hmem
    obtain ⟨n, hn, he⟩ := List.mem_map.mp hmem
    have hd : n.data = name.data :=
      List.append_cancel_left (congrArg String.data he)
    exact hact (String.ext hd ▸ hn)

/-- Witness for C7: a frame-pattern name that is not active is absent from
the published directory and from the manifest's frame lines after the
sample cycle. -/
theorem publish_removed_frames_swept_witness :
    dictGet "frame-0099.png" sampleDir1.files = none ∧
    (sampleInput.outPathBase ++ "frame-0099.png") ∉ manifestFrameLines sampleInput :=
  publish_removed_frames_swept sampleInput sampleDir0 sampleDir1 sampleRes
    (by with_unfolding_all decide) "frame-0099.png" (by with_unfolding_all decide)
    (by decide) (Or.inl (by decide))

/-! ## State invariant: C8 -/

/-- C8: after every successful publish cycle, the keys of the persisted
state's frames map are exactly the current timeline's active frame
names; no frame entry from a previous run survives for a frame that is
no longer active. -/
theorem publish_state_frames_keys (inp : PublishInput) (dir0 dir1 : OutDir)
    (res : PublishResult) (h : publish_animation inp dir0 = .ok (dir1, res)) :
    ∃ st, dir1.state = some st ∧ ∃ fr, st.frames = some fr ∧
      ∀ name, name ∈ dictKeys fr ↔ name ∈ activeFrameNames inp := by
  have hd1 := (publish_ok_inv inp dir0 dir1 res h).1
  refine ⟨nextStateRun inp dir0, by rw [hd1], currentFrameSigs inp, rfl, ?_⟩
  intro name
  unfold currentFrameSigs
  rw [dictKeys_foldl_insert_mem frameName (fun i => frameSig inp i) (activeFrameIdxs inp) [] name]
  unfold activeFrameNames
  constructor
  · rintro (⟨i, hi, hk⟩ | hk)
    · exact List.mem_map.mpr ⟨i, hi, hk⟩
    · exact absurd hk (by simp [dictKeys])
  · intro hm
    obtain ⟨i, hi, hk⟩ := List.mem_map.mp hm
    exact Or.inl ⟨i, hi, hk⟩

/-- Witness for C8 on the sample cycle. -/
theorem publish_state_frames_keys_witness :
    ∃ st, sampleDir1.state = some st ∧ ∃ fr, st.frames = some fr ∧
      ∀ name, name ∈ dictKeys fr ↔ name ∈ activeFrameNames sampleInput :=
  publish_state_frames_keys sampleInput sampleDir0 sampleDir1 sampleRes
    (by with_unfolding_all decide)

/-! ## Cache stability across runs (towards C3) -/

theorem resolveFromCache_idem (v : Option (List Int)) :
    resolveFromCache (resolveFromCache v).1 = resolveFromCache v := by
  rcases v with _ | l
  · rfl
  · rcases l with _ | ⟨a, l⟩
    · rfl
    rcases l with _ | ⟨b, l⟩
    · rfl
    rcases l with _ | ⟨w, l⟩
    · rfl
    rcases l with _ | ⟨hh, l⟩
    · rfl
    rcases l with _ | ⟨x, l⟩
    · rfl
    · rfl

theorem resolveCel_roundtrip (C0 C1 : List (String × Option (List Int))) (c : Cel)
    (h : dictGet c.sig C1 = some (resolveCel C0 c).1) :
    resolveCel C1 c = resolveCel C0 c := by
  have h1 : resolveCel C1 c = resolveFromCache (resolveCel C0 c).1 := by
    unfold resolveCel
    rw [h]
    rfl
  rw [h1]
  unfold resolveCel
  rcases hg : dictGet c.sig C0 with _ | v
  · rcases hb : c.bbox with _ | ⟨a, b, w, hh⟩
    · rfl
    · rfl
  · exact resolveFromCache_idem v

theorem bboxFold_dedup (C : List (String × Option (List Int)))
    (items : List (String × Cel)) (seen : List String)
    (cache : List (String × Option (List Int))) (u : Option (Int × Int × Int × Int)) :
    (items.foldl (bboxFoldStep C) (seen, cache, u)).2 =
      (dedupBy seen items).foldl (bboxPureStep C) (cache, u) := by
  induction items generalizing seen cache u with
  | nil => rfl
  | cons it t ih =>
      rw [List.foldl_cons]
      unfold bboxFoldStep dedupBy
      by_cases hs : seen.contains it.1
      · rw [if_pos hs, if_pos hs]
        exact ih seen cache u
      · rw [if_neg hs, if_neg hs, List.foldl_cons]
        exact ih (it.1 :: seen) _ _

theorem pureFold_cache_component (C : List (String × Option (List Int)))
    (d : List (String × Cel)) (cache : List (String × Option (List Int)))
    (u : Option (Int × Int × Int × Int)) :
    (d.foldl (bboxPureStep C) (cache, u)).1 =
      d.foldl (fun cch it => dictInsert it.2.sig (resolveCel C it.2).1 cch) cache := by
  induction d generalizing cache u with
  | nil => rfl
  | cons it t ih => exact ih _ _

theorem insertFold_lookup (C : List (String × Option (List Int)))
    (d : List (String × Cel)) (cache : List (String × Option (List Int)))
    (it0 : String × Cel) (hit0 : it0 ∈ d)
    (hnodup : (d.map (fun it => it.2.sig)).Nodup) :
    dictGet it0.2.sig
        (d.foldl (fun cch it => dictInsert it.2.sig (resolveCel C it.2).1 cch) cache) =
      some (resolveCel C it0.2).1 := by
  induction d generalizing cache with
  | nil => exact absurd hit0 (by simp)
  | cons it t ih =>
      rw [List.foldl_cons]
      rw [List.map_cons, List.nodup_cons] at hnodup
      rcases List.mem_cons.mp hit0 with heq | hmem
      · subst heq
        have hnm : ∀ b ∈ t, b.2.sig ≠ it0.2.sig := by
          intro b hb he
          exact hnodup.1 (he ▸ List.mem_map.mpr ⟨b, hb, rfl⟩)
        rw [dictGet_foldl_insert_nmem (fun it : String × Cel => it.2.sig)
              (fun it => (resolveCel C it.2).1) t _ _ hnm,
            dictGet_insert_self]
      · exact ih _ hmem hnodup.2

theorem pureFold_congr (Ca Cb : List (String × Option (List Int)))
    (d : List (String × Cel))
    (cu : List (String × Option (List Int)) × Option (Int × Int × Int × Int))
    (h : ∀ it ∈ d, resolveCel Ca it.2 = resolveCel Cb it.2) :
    d.foldl (bboxPureStep Ca) cu = d.foldl (bboxPureStep Cb) cu := by
  induction d generalizing cu with
  | nil => rfl
  | cons it t ih =>
      rw [List.foldl_cons, List.foldl_cons]
      have hstep : bboxPureStep Ca cu it = bboxPureStep Cb cu it := by
        unfold bboxPureStep
        rw [h it (by simp)]
      rw [hstep]
      exact ih _ (fun x hx => h x (List.mem_cons_of_mem it hx))

theorem newBBoxCache_lookup (inp : PublishInput) (C0 : List (String × Option (List Int)))
    (it0 : String × Cel) (hit0 : it0 ∈ dedupBy [] (celCandidates inp.layers))
    (hnodup : distinctCelSigs inp) :
    dictGet it0.2.sig (newBBoxCache inp C0) = some (resolveCel C0 it0.2).1 := by
  unfold newBBoxCache bboxFoldResult
  have hdd := bboxFold_dedup C0 (celCandidates inp.layers) [] [] none
  have hfst := congrArg Prod.fst hdd
  simp only at hfst
  rw [hfst, pureFold_cache_component]
  exact insertFold_lookup C0 _ [] it0 hit0 hnodup

theorem bboxFoldResult_stable (inp : PublishInput)
    (C0 : List (String × Option (List Int))) (hnodup : distinctCelSigs inp) :
    (bboxFoldResult inp (newBBoxCache inp C0)).2 = (bboxFoldResult inp C0).2 := by
  unfold bboxFoldResult
  rw [bboxFold_dedup, bboxFold_dedup]
  apply pureFold_congr
  intro it hit
  exact resolveCel_roundtrip C0 (newBBoxCache inp C0) it.2
    (newBBoxCache_lookup inp C0 it hit hnodup)

theorem newBBoxCache_stable (inp : PublishInput)
    (C0 : List (String × Option (List Int))) (hnodup : distinctCelSigs inp) :
    newBBoxCache inp (newBBoxCache inp C0) = newBBoxCache inp C0 :=
  congrArg Prod.fst (bboxFoldResult_stable inp C0 hnodup)

theorem sourceBBoxUnion_stable (inp : PublishInput)
    (C0 : List (String × Option (List Int))) (hnodup : distinctCelSigs inp) :
    sourceBBoxUnion inp (newBBoxCache inp C0) = sourceBBoxUnion inp C0 :=
  congrArg Prod.snd (bboxFoldResult_stable inp C0 hnodup)

theorem cropRect_stable (inp : PublishInput)
    (C0 : List (String × Option (List Int))) (hnodup : distinctCelSigs inp) :
    cropRect inp (newBBoxCache inp C0) = cropRect inp C0 := by
  unfold cropRect source_bbox
  rw [sourceBBoxUnion_stable inp C0 hnodup]

theorem cropOf_stable (inp : PublishInput)
    (C0 : List (String × Option (List Int))) (hnodup : distinctCelSigs inp) :
    cropOf inp (newBBoxCache inp C0) = cropOf inp C0 := by
  unfold cropOf
  rw [cropRect_stable inp C0 hnodup]

/-! ## Dictionary idempotence and key-nodup machinery (towards C3) -/

theorem mem_dictInsert {α : Type} (k : String) (v : α) (l : List (String × α))
    (p : String × α) (h : p ∈ dictInsert k v l) :
    p = (k, v) ∨ (p ∈ l ∧ p.1 ≠ k) := by
  unfold dictInsert at h
  by_cases hA : l.any (fun p => p.1 == k)
  · rw [if_pos hA] at h
    obtain ⟨q, hq, hqe⟩ := List.mem_map.mp h
    by_cases hqk : (q.1 == k) = true
    · left
      rw [← hqe, if_pos hqk]
    · right
      rw [← hqe, if_neg hqk]
      exact ⟨hq, by simpa using hqk⟩
  · rw [if_neg hA] at h
    rcases List.mem_append.mp h with h | h
    · right
      refine ⟨h, fun he => hA (List.any_eq_true.mpr ⟨p, h, by simp [he]⟩)⟩
    · left
      simpa using h

theorem mem_foldl_insert {α β : Type} (key : β → String) (val : β → α)
    (items : List β) (d : List (String × α)) (p : String × α)
    (h : p ∈ items.foldl (fun d b => dictInsert (key b) (val b) d) d) :
    (∃ b ∈ items, p.1 = key b) ∨ p ∈ d := by
  induction items generalizing d with
  | nil => exact Or.inr h
  | cons b t ih =>
      rw [List.foldl_cons] at h
      rcases ih _ h with ⟨b0, hb0, hk⟩ | hmem
      · exact Or.inl ⟨b0, List.mem_cons_of_mem b hb0, hk⟩
      · rcases mem_dictInsert (key b) (val b) d p hmem with heq | ⟨hp, _⟩
        · exact Or.inl ⟨b, by simp, by rw [heq]⟩
        · exact Or.inr hp

theorem dictInsert_any (k : String) {α : Type} (v : α) (l : List (String × α)) :
    (dictInsert k v l).any (fun p => p.1 == k) = true := by
  unfold dictInsert
  by_cases hA : l.any (fun p => p.1 == k)
  · rw [if_pos hA]
    obtain ⟨q, hq, hqk⟩ := List.any_eq_true.mp hA
    exact List.any_eq_true.mpr ⟨(k, v), List.mem_map.mpr ⟨q, hq, by simp [hqk]⟩, by simp⟩
  · rw [if_neg hA]
    exact List.any_eq_true.mpr ⟨(k, v), List.mem_append.mpr (Or.inr (by simp)), by simp⟩

theorem map_eq_self_of {α : Type} (f : α → α) (l : List α) (h : ∀ a ∈ l, f a = a) :
    l.map f = l := by
  induction l with
  | nil => rfl
  | cons a t ih =>
      rw [List.map_cons, h a (by simp), ih (fun x hx => h x (List.mem_cons_of_mem a hx))]

theorem dictInsert_idem (k : String) {α : Type} (v : α) (l : List (String × α)) :
    dictInsert k v (dictInsert k v l) = dictInsert k v l := by
  have hA : (dictInsert k v l).any (fun p => p.1 == k) = true := dictInsert_any k v l
  have hmem : ∀ p ∈ dictInsert k v l,
      (if p.1 == k then (k, v) else p) = p := by
    intro p hp
    rcases mem_dictInsert k v l p hp with heq | ⟨_, hne⟩
    · rw [heq]
      simp
    · rw [if_neg (by simpa using hne)]
  generalize hgen : dictInsert k v l = L at hA hmem ⊢
  unfold dictInsert
  rw [if_pos hA]
  exact map_eq_self_of _ L hmem

theorem nodupKeys_dictInsert {α : Type} (k : String) (v : α) (l : List (String × α))
    (h : (dictKeys l).Nodup) : (dictKeys (dictInsert k v l)).Nodup := by
  unfold dictInsert
  by_cases hA : l.any (fun p => p.1 == k)
  · rw [if_pos hA, dictKeys_map_replace]
    exact h
  · rw [if_neg hA]
    unfold dictKeys
    rw [List.map_append]
    refine List.Nodup.append h (by simp) ?_
    intro a ha hb
    have hak : a = k := by simpa using hb
    obtain ⟨p, hp, hpk⟩ := List.mem_map.mp ha
    exact absurd (List.any_eq_true.mpr ⟨p, hp, by simp [hpk, hak]⟩) hA

theorem nodupKeys_foldl_insert {α β : Type} (key : β → String) (val : β → α)
    (items : List β) (d : List (String × α)) (h : (dictKeys d).Nodup) :
    (dictKeys (items.foldl (fun d b => dictInsert (key b) (val b) d) d)).Nodup := by
  induction items generalizing d with
  | nil => exact h
  | cons b t ih => exact ih _ (nodupKeys_dictInsert (key b) (val b) d h)

theorem nodupKeys_currentInputs (inp : PublishInput) :
    (dictKeys (currentInputs inp)).Nodup := by
  unfold currentInputs
  have h0 : (dictKeys (dictInsert "data.txt" inp.data_sig
      ([] : List (String × String)))).Nodup :=
    nodupKeys_dictInsert _ _ _ (by simp [dictKeys])
  have h1 : (dictKeys (match inp.camera_sig with
      | some s => dictInsert "camera.txt" s (dictInsert "data.txt" inp.data_sig [])
      | none => dictInsert "data.txt" inp.data_sig [])).Nodup := by
    cases inp.camera_sig with
    | none => exact h0
    | some s => exact nodupKeys_dictInsert _ _ _ h0
  have h2 : ∀ (ls : List Layer) (d : List (String × String)), (dictKeys d).Nodup →
      (dictKeys (ls.foldl
        (fun acc layer =>
          match layer.layerDataSig with
          | some s => dictInsert (layer.directory ++ "/layerData.txt") s acc
          | none => acc) d)).Nodup := by
    intro ls
    induction ls with
    | nil => exact fun d h => h
    | cons layer t ih =>
        intro d hd
        rw [List.foldl_cons]
        cases layer.layerDataSig with
        | none => exact ih d hd
        | some s => exact ih _ (nodupKeys_dictInsert _ _ _ hd)
  have h3 : ∀ (idxs : List Nat) (d : List (String × String)), (dictKeys d).Nodup →
      (dictKeys (idxs.foldl
        (fun acc i =>
          (activeCelsWithPath inp.layers i).foldl
            (fun acc2 pc => dictInsert pc.1 pc.2.isig acc2) acc) d)).Nodup := by
    intro idxs
    induction idxs with
    | nil => exact fun d h => h
    | cons i t ih =>
        intro d hd
        rw [List.foldl_cons]
        exact ih _ (nodupKeys_foldl_insert (fun pc : String × Cel => pc.1)
          (fun pc => pc.2.isig) (activeCelsWithPath inp.layers i) d hd)
  exact h3 _ _ (h2 _ _ h1)

theorem dictGet_of_mem_nodup {α : Type} (l : List (String × α)) (p : String × α)
    (hmem : p ∈ l) (h : (dictKeys l).Nodup) : dictGet p.1 l = some p.2 := by
  induction l with
  | nil => exact absurd hmem (by simp)
  | cons a t ih =>
      have hk : dictKeys (a :: t) = a.1 :: dictKeys t := rfl
      rw [hk, List.nodup_cons] at h
      rcases List.mem_cons.mp hmem with rfl | hmem'
      · unfold dictGet
        rw [find?_cons_true _ _ _ (by simp)]
        rfl
      · have hne : a.1 ≠ p.1 := by
          intro he
          exact h.1 (he ▸ List.mem_map.mpr ⟨p, hmem', rfl⟩)
        unfold dictGet
        rw [find?_cons_false _ _ _ (by simp [hne])]
        exact ih hmem' h.2

theorem changedInputFilesOf_self (C : List (String × String))
    (h : (dictKeys C).Nodup) : changedInputFilesOf C C = [] := by
  unfold changedInputFilesOf
  have h1 : C.filter (fun p => decide (dictGet p.1 C ≠ some p.2)) = [] := by
    rw [List.filter_eq_nil_iff]
    intro p hp
    simp [dictGet_of_mem_nodup C p hp h]
  have h2 : C.filter (fun p => decide (dictGet p.1 C = none)) = [] := by
    rw [List.filter_eq_nil_iff]
    intro p hp
    simp [dictGet_of_mem_nodup C p hp h]
  rw [h1, h2]
  rfl

/-! ## Idempotence: C3 -/

theorem publish_ok_guards (inp : PublishInput) (dir0 dir1 : OutDir) (res : PublishResult)
    (h : publish_animation inp dir0 = .ok (dir1, res)) :
    ¬ inp.layers.isEmpty = true ∧ ¬ timeline_frame_count inp.layers ≤ 0 ∧
    ¬ (activeFrameNames inp).isEmpty = true ∧ ¬ (inp.canvas_w = 0 ∨ inp.canvas_h = 0) ∧
    ¬ (inp.bg_w = 0 ∨ inp.bg_h = 0) := by
  unfold publish_animation at h
  split_ifs at h with h1 h2 h3 h4 h5
  exact ⟨h1, h2, h3, h4, h5⟩

/-- C3: running the publish cycle twice on the same project with zero
input changes between the runs produces zero rebuilt frames on the
second run and leaves the output directory — every published frame file,
the manifest, and the state file — identical to the first run's output.
The hypothesis that distinct cel files have distinct content signatures
always holds for the real file_signature, which embeds the file path. -/
theorem publish_idempotent (inp : PublishInput) (dir0 dir1 : OutDir) (res : PublishResult)
    (hsig : distinctCelSigs inp)
    (h : publish_animation inp dir0 = .ok (dir1, res)) :
    publish_animation inp dir1 = .ok (dir1,
      { frame_count := (activeFrameNames inp).length, fps := inp.fps,
        rebuilt_frames := 0, changed_input_files := [], changed_frames := [] }) := by
  obtain ⟨hd1, hres⟩ := publish_ok_inv inp dir0 dir1 res h
  obtain ⟨hg1, hg2, hg3, hg4, hg5⟩ := publish_ok_guards inp dir0 dir1 res h
  have hprev : prevStateOf dir1 = nextStateRun inp dir0 := by
    rw [hd1]
    unfold prevStateOf load_publish_state
    rfl
  have hPF : prevFramesOf dir1 = currentFrameSigs inp := by
    unfold prevFramesOf
    rw [hprev]
    rfl
  have hPC : prevCacheOf dir1 = newBBoxCache inp (prevCacheOf dir0) := by
    unfold prevCacheOf
    rw [hprev]
    rfl
  have hcacheEq : newBBoxCache inp (prevCacheOf dir1) = newBBoxCache inp (prevCacheOf dir0) := by
    rw [hPC]
    exact newBBoxCache_stable inp (prevCacheOf dir0) hsig
  have hcropR : cropRect inp (prevCacheOf dir1) = cropRect inp (prevCacheOf dir0) := by
    rw [hPC]
    exact cropRect_stable inp (prevCacheOf dir0) hsig
  have hcrop : cropRun inp dir1 = cropRun inp dir0 := by
    unfold cropRun cropOf
    rw [hcropR]
  have hFF : forceFullRun inp dir1 = false := by
    unfold forceFullRun
    rw [hprev, hcrop]
    simp [nextStateRun, cropRun]
  have hremoved : removedFramesRun inp dir1 = [] := by
    unfold removedFramesRun
    rw [hPF, List.filter_eq_nil_iff]
    intro name hk
    simp only [decide_eq_true_eq]
    intro hnone
    exact (dictGet_eq_none_iff name (currentFrameSigs inp)).mp hnone hk
  have hAR : afterRemoved inp dir1 = dir1.files := by
    unfold afterRemoved
    rw [hremoved]
    rfl
  have hAS : afterSweep inp dir1 = dir1.files := by
    unfold afterSweep
    rw [hAR]
    apply List.filter_eq_self.mpr
    intro p hp
    rw [hd1] at hp
    rcases mem_dictInsert _ _ _ _ hp with heq | ⟨hp2, _⟩
    · rw [heq]
      have hmp : isFramePatternName "manifest.txt" = false := by decide
      simp [hmp]
    · rcases mem_foldl_insert (fun n : String => n) (fun n => inp.compositeBytes n)
        (changedFramesRun inp dir0) (afterSweep inp dir0) p hp2 with ⟨b, hb, hk⟩ | hp3
    -- written frame: its name is an active frame name, so present in the current dict
      · unfold changedFramesRun at hb
        obtain ⟨i, hi, rfl⟩ := List.mem_map.mp hb
        have hcur : dictGet (frameName i) (currentFrameSigs inp) ≠ none := by
          unfold changedIdxsRun at hi
          exact dictGet_currentFrameSigs_ne_none inp i (List.mem_filter.mp hi).1
        rw [Bool.not_eq_true']
        rw [Bool.and_eq_false_iff]
        right
        rw [hk]
        simpa using hcur
      · exact (List.mem_filter.mp hp3).2
  have hdisk : ∀ i ∈ activeFrameIdxs inp, dictGet (frameName i) dir1.files ≠ none := by
    intro i hi
    rw [hd1]
    show dictGet (frameName i)
        (dictInsert "manifest.txt" (manifestContent inp dir0)
          (writeFrames inp (afterSweep inp dir0) (changedFramesRun inp dir0))) ≠ none
    apply dictGet_insert_ne_none
    left
    by_cases hch : i ∈ changedIdxsRun inp dir0
    · unfold writeFrames
      apply dictGet_foldl_insert_ne_none (fun n : String => n)
      left
      refine ⟨frameName i, ?_, rfl⟩
      unfold changedFramesRun
      exact List.mem_map.mpr ⟨i, hch, rfl⟩
    · have hpred : ¬ (forceFullRun inp dir0 = true ∨
          dictGet (frameName i) (prevFramesOf dir0) ≠
            dictGet (frameName i) (currentFrameSigs inp) ∨
          dictGet (frameName i) (afterSweep inp dir0) = none) := by
        intro hp
        apply hch
        apply List.mem_filter.mpr
        refine ⟨hi, ?_⟩
        simp only [Bool.or_eq_true, decide_eq_true_eq]
        tauto
      push_neg at hpred
      unfold writeFrames
      apply dictGet_foldl_insert_ne_none (fun n : String => n)
      right
      exact hpred.2.2
  have hchanged : changedIdxsRun inp dir1 = [] := by
    unfold changedIdxsRun
    rw [List.filter_eq_nil_iff]
    intro i hi
    rw [hFF, hPF, hAS]
    simp only [Bool.false_or, Bool.or_eq_true, decide_eq_true_eq]
    push_neg
    exact ⟨rfl, hdisk i hi⟩
  have hchangedF : changedFramesRun inp dir1 = [] := by
    unfold changedFramesRun
    rw [hchanged]
    rfl
  have hmanifest : manifestContent inp dir1 = manifestContent inp dir0 := by
    unfold manifestContent manifestLinesRun
    rw [hcropR]
  have hnextState : nextStateRun inp dir1 = nextStateRun inp dir0 := by
    unfold nextStateRun
    rw [hcrop, hcacheEq]
  have hfiles : dictInsert "manifest.txt" (manifestContent inp dir1)
      (writeFrames inp (afterSweep inp dir1) (changedFramesRun inp dir1)) = dir1.files := by
    rw [hmanifest, hAS, hchangedF]
    show dictInsert "manifest.txt" (manifestContent inp dir0) dir1.files = dir1.files
    rw [hd1]
    exact dictInsert_idem "manifest.txt" _ _
  have hinputs : changedInputFilesOf (currentInputs inp)
      ((prevStateOf dir1).input_files.getD []) = [] := by
    rw [hprev]
    exact changedInputFilesOf_self _ (nodupKeys_currentInputs inp)
  unfold publish_animation
  rw [if_neg hg1, if_neg hg2, if_neg hg3, if_neg hg4, if_neg hg5]
  refine congrArg Except.ok ?_
  refine Prod.ext ?_ ?_
  · show OutDir.mk (dictInsert "manifest.txt" (manifestContent inp dir1)
        (writeFrames inp (afterSweep inp dir1) (changedFramesRun inp dir1)))
        (some (nextStateRun inp dir1)) = dir1
    rw [hfiles, hnextState]
    have hst : dir1.state = some (nextStateRun inp dir0) := by
      rw [hd1]
    rw [← hst]
  · show PublishResult.mk (activeFrameNames inp).length inp.fps
        (changedFramesRun inp dir1).length
        (changedInputFilesOf (currentInputs inp) ((prevStateOf dir1).input_files.getD []))
        (changedFramesRun inp dir1) = _
    rw [hchangedF, hinputs]
    rfl

/-- Witness for C3: the second cycle on the unchanged sample project
returns the first cycle's directory unchanged with zero rebuilt
frames. -/
theorem publish_idempotent_witness :
    publish_animation sampleInput sampleDir1 = .ok (sampleDir1,
      { frame_count := (activeFrameNames sampleInput).length, fps := sampleInput.fps,
        rebuilt_frames := 0, changed_input_files := [], changed_frames := [] }) :=
  publish_idempotent sampleInput sampleDir0 sampleDir1 sampleRes
    (by unfold distinctCelSigs; decide) (by with_unfolding_all decide)

end RoughAnimator
